import Mathlib

/-!
# UsbPwr firmware: control logic of `firmware/UsbPwr/main.c`

A shallow embedding of the variables of `main.c` and of the functions that
read and write them: the setpoint events, the feature-report transfer
handlers, the quadrature decoder and timer block of `processEvents`, and the
connected loop of `main`.

Scope of the state: the program's variables.  `setRelay`, `mcpUpdate`,
`beep` and the `lcd_*` routines only write I/O registers (`PORTx`, `SPDR`)
that no variable of the program is ever computed from, so calls to them leave
the modelled state as it is.  Pin and ADC reads are inputs of the step
functions.

Target conventions (AVR, avr-gcc): `uchar` is 8 bits, `int` and
`unsigned int` are 16 bits, structures are packed at byte alignment and
multi-byte fields are little-endian, so `struct SPowerSupplyState` overlays
`bytes[8]` exactly (the source comments it as `8 bytes long`, and the host
application `testapp/main.cpp` lays the same fields out after its report id).
-/

namespace UsbPwr

/-! ## Constants -/

def STATE_DISCONNECTED : Nat := 0
def STATE_CONNECTED : Nat := 1
def SETSTATE_VOLTAGE : Nat := 0
def SETSTATE_CURRENT : Nat := 1
def OUTSTATE_OFF : Nat := 0
def OUTSTATE_ON : Nat := 1
def ROTATESTATE_SLOW : Nat := 0
def ROTATESTATE_FAST : Nat := 1

/-- Signed 16-bit wrap of an `int` result. -/
def wrapInt (x : Int) : Int := (x + 32768) % 65536 - 32768

/-! ## Program state -/

/-- The variables of `main.c`.  `pss` is the byte view `pss.bytes` of the
union `SPSS`; the structure view is given by the field accessors below. -/
structure State where
  pss : List Nat
  bytesRemaining : Int
  currentPosition : Int
  state : Nat
  us : Nat
  is : Nat
  um : Nat
  im : Nat
  setstate : Nat
  outstate : Nat
  rotatestate : Nat
  rotations : Nat
  prevrotations : Nat
deriving DecidableEq, Repr

/-- State after static initialisation of the globals. -/
def initState : State :=
  { pss := [0, 0, 0, 0, 0, 0, 0, 0]
    bytesRemaining := 0
    currentPosition := 0
    state := STATE_DISCONNECTED
    us := 0, is := 0, um := 0, im := 0
    setstate := SETSTATE_VOLTAGE
    outstate := OUTSTATE_ON
    rotatestate := ROTATESTATE_SLOW
    rotations := 0
    prevrotations := 0 }

/-! ## Setpoint events -/

/-- Body of `eventEncoderCounterclockwise` (the closing `mcpUpdate()` writes
only SPI and port registers). -/
def eventEncoderCounterclockwise (s : State) : State :=
  if s.setstate = SETSTATE_VOLTAGE then
    if s.rotatestate = ROTATESTATE_SLOW then
      if s.us ≤ 16 then { s with us := 0 }
      else { s with us := (s.us + 65536 - 16) % 65536 }
    else
      if s.us ≤ 256 then { s with us := 0 }
      else { s with us := (s.us + 65536 - 256) % 65536 }
  else
    if s.rotatestate = ROTATESTATE_SLOW then
      if s.is ≤ 64 then { s with is := 0 }
      else { s with is := (s.is + 65536 - 64) % 65536 }
    else
      if s.is ≤ 256 then { s with is := 0 }
      else { s with is := (s.is + 65536 - 256) % 65536 }

/-- Body of `eventEncoderClockwise`. -/
def eventEncoderClockwise (s : State) : State :=
  if s.setstate = SETSTATE_VOLTAGE then
    if s.rotatestate = ROTATESTATE_SLOW then
      if s.us ≥ 65535 - 16 then { s with us := 65535 }
      else { s with us := (s.us + 16) % 65536 }
    else
      if s.us ≥ 65535 - 256 then { s with us := 65535 }
      else { s with us := (s.us + 256) % 65536 }
  else
    if s.rotatestate = ROTATESTATE_SLOW then
      if s.is ≥ 65535 - 64 then { s with is := 65535 }
      else { s with is := (s.is + 64) % 65536 }
    else
      if s.is ≥ 65535 - 256 then { s with is := 65535 }
      else { s with is := (s.is + 256) % 65536 }

/-- Body of `eventOutputControlClicked`. -/
def eventOutputControlClicked (s : State) : State :=
  if s.outstate = OUTSTATE_ON then { s with outstate := OUTSTATE_OFF }
  else { s with outstate := OUTSTATE_ON }

/-- Body of `eventEncoderClicked`. -/
def eventEncoderClicked (s : State) : State :=
  if s.setstate = SETSTATE_VOLTAGE then { s with setstate := SETSTATE_CURRENT }
  else { s with setstate := SETSTATE_VOLTAGE }

/-- Body of `eventTimerTick`: `um` and `im` take the two ADC results
(channel 7, then channel 6); the rest of the body draws on the display. -/
def eventTimerTick (s : State) (adc7 adc6 : Nat) : State :=
  { s with um := adc7, im := adc6 }

/-- The state after `k` successive calls of `eventEncoderClockwise`. -/
def clockwiseTimes : Nat → State → State
  | 0, s => s
  | k + 1, s => eventEncoderClockwise (clockwiseTimes k s)

/-! ## The feature-report record -/

/-- Field `pss.spss.output_state` (byte 0). -/
def output_state (b : List Nat) : Nat := b.getD 0 0

/-- Field `pss.spss.voltage_value` (bytes 1 and 2, little-endian). -/
def voltage_value (b : List Nat) : Nat := b.getD 1 0 + 256 * b.getD 2 0

/-- Field `pss.spss.amperage_value` (bytes 3 and 4, little-endian). -/
def amperage_value (b : List Nat) : Nat := b.getD 3 0 + 256 * b.getD 4 0

/-- Fields `res1`, `res2`, `res3` (bytes 5, 6 and 7). -/
def reserved (b : List Nat) : List Nat := [b.getD 5 0, b.getD 6 0, b.getD 7 0]

/-- Assignment to `pss.spss.output_state`. -/
def set_output_state (b : List Nat) (v : Nat) : List Nat := b.set 0 (v % 256)

/-- Assignment to `pss.spss.voltage_value`. -/
def set_voltage_value (b : List Nat) (v : Nat) : List Nat :=
  (b.set 1 (v % 256)).set 2 (v / 256 % 256)

/-- Assignment to `pss.spss.amperage_value`. -/
def set_amperage_value (b : List Nat) (v : Nat) : List Nat :=
  (b.set 3 (v % 256)).set 4 (v / 256 % 256)

/-! ## Transfer handlers -/

/-- The loop `for(i = 0; i < len; i++) pss.bytes[currentPosition++] = data[i];`
of `usbFunctionWrite`, entered at index `i` with `n = len - i` iterations to
go.  A read past `data` or a store outside `bytes[0..7]` has no defined
behaviour and gives `none`. -/
def copyLoop (data : List Nat) : Nat → Nat → State → Option State
  | 0, _, s => some s
  | n + 1, i, s =>
    match data[i]? with
    | none => none
    | some b =>
      if 0 ≤ s.currentPosition ∧ s.currentPosition < 8 then
        copyLoop data n (i + 1)
          { s with pss := s.pss.set s.currentPosition.toNat b
                   currentPosition := wrapInt (s.currentPosition + 1) }
      else none

/-- Body of `usbFunctionWrite(data, len)`; the second component is the
returned `uchar`. -/
def usbFunctionWrite (s : State) (data : List Nat) (len : Nat) : Option (State × Nat) :=
  let len1 : Nat := if (len : Int) > s.bytesRemaining then (s.bytesRemaining % 256).toNat else len
  let s1 : State := { s with bytesRemaining := wrapInt (s.bytesRemaining - (len1 : Int)) }
  match copyLoop data len1 0 s1 with
  | none => none
  | some s2 =>
    if s2.bytesRemaining = 0 then
      some ({ s2 with us := voltage_value s2.pss
                      is := amperage_value s2.pss
                      outstate := output_state s2.pss }, 1)
    else some (s2, 0)

/-- Modelled from the spec: the transport header `usbdrv.h` is not among the
sources; this is its mask of the request-type bits of `bmRequestType`, with the
value the USB standard gives it. -/
def USBRQ_TYPE_MASK : Nat := 0x60
/-- Modelled from the spec: the class request type of the missing header
`usbdrv.h`, with the value of the USB standard. -/
def USBRQ_TYPE_CLASS : Nat := 0x20
/-- Modelled from the spec: the request code of a Read (`GET`) in the missing
header `usbdrv.h`, with the value of the HID class definition. -/
def USBRQ_HID_GET_REPORT : Nat := 0x01
/-- Modelled from the spec: the request code of a Write (`SET`) in the missing
header `usbdrv.h`, with the value of the HID class definition. -/
def USBRQ_HID_SET_REPORT : Nat := 0x09
/-- Modelled from the spec: the return value of the missing header `usbdrv.h`
that asks the transport to hand the payload to `usbFunctionWrite`. -/
def USB_NO_MSG : Nat := 255

/-- Outcome of `usbFunctionSetup`: the new state, the returned length and the
bytes that `usbMsgPtr` designates for the reply (empty when none is set). -/
structure SetupResult where
  st : State
  len : Nat
  msg : List Nat
deriving DecidableEq, Repr

/-- Body of `usbFunctionSetup(data)`; `data[0]` is `bmRequestType` and
`data[1]` is `bRequest`. -/
def usbFunctionSetup (s : State) (data : List Nat) : SetupResult :=
  if data.getD 0 0 &&& USBRQ_TYPE_MASK = USBRQ_TYPE_CLASS then
    if data.getD 1 0 = USBRQ_HID_GET_REPORT then
      let p1 := set_amperage_value s.pss s.im
      let p2 := set_voltage_value p1 s.um
      let p3 := set_output_state p2 s.outstate
      { st := { s with pss := p3 }, len := 8, msg := p3 }
    else if data.getD 1 0 = USBRQ_HID_SET_REPORT then
      { st := { s with bytesRemaining := 8, currentPosition := 0 }, len := USB_NO_MSG, msg := [] }
    else { st := s, len := 0, msg := [] }
  else { st := s, len := 0, msg := [] }

/-- A class request `GET_REPORT` as the host sends it. -/
def getReport : List Nat := [0xa1, USBRQ_HID_GET_REPORT, 0, 3, 0, 0, 8, 0]

/-- A class request `SET_REPORT` as the host sends it. -/
def setReport : List Nat := [0x21, USBRQ_HID_SET_REPORT, 0, 3, 0, 0, 8, 0]

/-- Delivery of successive chunks to `usbFunctionWrite`, each with its own
length; the returned values are collected in order. -/
def writeChunks : State → List (List Nat) → Option (State × List Nat)
  | s, [] => some (s, [])
  | s, c :: cs =>
    match usbFunctionWrite s c c.length with
    | none => none
    | some (s1, r) =>
      match writeChunks s1 cs with
      | none => none
      | some (s2, rs) => some (s2, r :: rs)

/-- The flag expected from each chunk when `acc` bytes came before: 1 from the
chunk on that brings the total to 8, else 0. -/
def expectedFlags : Nat → List (List Nat) → List Nat
  | _, [] => []
  | acc, c :: cs =>
    (if 8 ≤ acc + c.length then 1 else 0) :: expectedFlags (acc + c.length) cs

/-! ## Pin reads -/

/-- Body of `getEncoderRotationState`, from the value of `PINC`. -/
def getEncoderRotationState (pinc : Nat) : Nat := pinc &&& 0x03

/-- Body of `getSwitchState`, from the values of `PIND` and `PINB`. -/
def getSwitchState (pind pinb : Nat) : Nat :=
  (if pind &&& 0x10 ≠ 0 then 0 else 1) + (if pinb &&& 0x02 ≠ 0 then 0 else 2)

/-- Body of `getUsbState`, from the value of `PINB`. -/
def getUsbState (pinb : Nat) : Nat := pinb &&& 0x10

/-! ## The loop of `processEvents` -/

/-- The local array `encstate[4]` of `processEvents`; `e0` is `encstate[0]`,
the code recorded last. -/
structure EncHist where
  e0 : Nat
  e1 : Nat
  e2 : Nat
  e3 : Nat
deriving DecidableEq, Repr

/-- The assignment `encstate[0] = encstate[1] = encstate[2] = encstate[3] = 3`. -/
def encReset : EncHist := { e0 := 3, e1 := 3, e2 := 3, e3 := 3 }

/-- Calls made to the event handlers, in order of the call. -/
inductive Event where
  | Clockwise
  | CounterClockwise
  | OutputControlClicked
  | EncoderClicked
  | TimerTick
deriving DecidableEq, Repr

/-- The statement `if(temp != encstate[0]) { ... }` that shifts the history. -/
def encPush (h : EncHist) (temp : Nat) : EncHist :=
  if temp ≠ h.e0 then { e3 := h.e2, e2 := h.e1, e1 := h.e0, e0 := temp } else h

/-- The condition of the first pattern test (clockwise). -/
def matchClockwise (h : EncHist) : Bool :=
  h.e3 == 2 && h.e2 == 0 && h.e1 == 1 && h.e0 == 3

/-- The condition of the second pattern test (counterclockwise). -/
def matchCounterclockwise (h : EncHist) : Bool :=
  h.e3 == 1 && h.e2 == 0 && h.e1 == 2 && h.e0 == 3

/-- The statement `rotations = rotations == 255 ? 255 : rotations + 1`. -/
def bumpRotations (s : State) : State :=
  { s with rotations := if s.rotations = 255 then 255 else s.rotations + 1 }

/-- The decoder part of one iteration of the loop of `processEvents`, for the
sample `temp`: the push and the two pattern tests, in this order. -/
def encoderStep (s : State) (h : EncHist) (temp : Nat) : State × EncHist × List Event :=
  let h1 := encPush h temp
  let r1 : State × EncHist × List Event :=
    if matchClockwise h1 then
      (bumpRotations (eventEncoderClockwise s), encReset, [Event.Clockwise])
    else (s, h1, [])
  if matchCounterclockwise r1.2.1 then
    (bumpRotations (eventEncoderCounterclockwise r1.1), encReset,
      r1.2.2 ++ [Event.CounterClockwise])
  else r1

/-- The switch part of one iteration, for the value `temp` of `getSwitchState`. -/
def switchStep (s : State) (temp : Nat) : State × List Event :=
  let r1 : State × List Event :=
    if temp = 1 then (eventOutputControlClicked s, [Event.OutputControlClicked]) else (s, [])
  if temp = 2 then (eventEncoderClicked r1.1, r1.2 ++ [Event.EncoderClicked]) else r1

/-- The block run when the overflow flag `TOV1` is set: `eventTimerTick`, the
choice of `rotatestate`, the hand-over of the counters, the link test. -/
def timerBlock (s : State) (adc7 adc6 usb : Nat) : State :=
  let s1 := eventTimerTick s adc7 adc6
  let s2 : State :=
    if s1.prevrotations + s1.rotations > 5 then { s1 with rotatestate := ROTATESTATE_FAST }
    else { s1 with rotatestate := ROTATESTATE_SLOW }
  let s3 : State := { s2 with prevrotations := s2.rotations }
  let s4 : State := { s3 with rotations := 0 }
  if usb ≠ 0 then { s4 with state := STATE_CONNECTED } else s4

/-- What one iteration of a polling loop reads from the hardware. -/
structure LoopInput where
  pinc : Nat
  pind : Nat
  pinbSwitch : Nat
  tov1 : Bool
  adc7 : Nat
  adc6 : Nat
  pinbUsb : Nat
deriving DecidableEq, Repr

/-- One iteration of the loop `while( state == STATE_DISCONNECTED )` of
`processEvents`. -/
def processEventsStep (s : State) (h : EncHist) (inp : LoopInput) :
    State × EncHist × List Event :=
  let r1 := encoderStep s h (getEncoderRotationState inp.pinc)
  let r2 := switchStep r1.1 (getSwitchState inp.pind inp.pinbSwitch)
  if inp.tov1 then
    (timerBlock r2.1 inp.adc7 inp.adc6 (getUsbState inp.pinbUsb), r1.2.1,
      r1.2.2 ++ r2.2 ++ [Event.TimerTick])
  else (r2.1, r1.2.1, r1.2.2 ++ r2.2)

/-- The decoder run over a stream of samples; one list of events per sample. -/
def decodeSamples : State → EncHist → List Nat → State × EncHist × List (List Event)
  | s, h, [] => (s, h, [])
  | s, h, x :: xs =>
    let r := encoderStep s h x
    let q := decodeSamples r.1 r.2.1 xs
    (q.1, q.2.1, r.2.2 :: q.2.2)

/-! ## The connected loop of `main` -/

/-- A call made by the transport from `usbPoll`. -/
inductive UsbCall where
  | setup (data : List Nat)
  | write (data : List Nat)
deriving DecidableEq, Repr

/-- The calls of one `usbPoll`, in order. -/
def usbPoll : State → List UsbCall → Option State
  | s, [] => some s
  | s, UsbCall.setup d :: cs => usbPoll (usbFunctionSetup s d).st cs
  | s, UsbCall.write d :: cs =>
    match usbFunctionWrite s d d.length with
    | none => none
    | some r => usbPoll r.1 cs

/-- One iteration of the loop `while( state == STATE_CONNECTED )` of `main`. -/
def connectedStep (s : State) (inp : LoopInput) (calls : List UsbCall) : Option State :=
  let s1 : State := { s with um := inp.adc7 }
  match usbPoll s1 calls with
  | none => none
  | some s2 =>
    let s3 : State := { s2 with im := inp.adc6 }
    if getUsbState inp.pinbUsb = 0 then some { s3 with state := STATE_DISCONNECTED }
    else some s3

/-- One evaluation of the connection mode: an iteration of the loop that the
current mode runs. -/
def modeStep (s : State) (h : EncHist) (inp : LoopInput) (calls : List UsbCall) :
    Option State :=
  if s.state = STATE_DISCONNECTED then some (processEventsStep s h inp).1
  else if s.state = STATE_CONNECTED then connectedStep s inp calls
  else some s

/-! ## Predicates used in the statements -/

/-- The setpoints and the output flag are those held in the record. -/
def Committed (s : State) : Prop :=
  s.us = voltage_value s.pss ∧ s.is = amperage_value s.pss ∧ s.outstate = output_state s.pss

/-- The setpoints and the output flag of `t` are those of `s`. -/
def SameSetpoints (s t : State) : Prop :=
  t.us = s.us ∧ t.is = s.is ∧ t.outstate = s.outstate

/-- The variables that no transfer handler assigns have the same value in `t`
as in `s`. -/
def SameLocal (s t : State) : Prop :=
  t.state = s.state ∧ t.um = s.um ∧ t.im = s.im ∧ t.setstate = s.setstate ∧
    t.rotatestate = s.rotatestate ∧ t.rotations = s.rotations ∧
    t.prevrotations = s.prevrotations

/-- The record has its 8 bytes and the write session stays inside it. -/
def SessionOk (s : State) : Prop :=
  s.pss.length = 8 ∧ 0 ≤ s.currentPosition ∧ 0 ≤ s.bytesRemaining ∧
    s.currentPosition + s.bytesRemaining ≤ 8

/-- The record and the write session of `t` are those of `s`. -/
def SameTransfer (s t : State) : Prop :=
  t.pss = s.pss ∧ t.bytesRemaining = s.bytesRemaining ∧ t.currentPosition = s.currentPosition

/-- The connection mode and the adjustment mode of `t` are those of `s`. -/
def SameMode (s t : State) : Prop :=
  t.state = s.state ∧ t.rotatestate = s.rotatestate

/-- The rotation counters of `t` are those of `s`. -/
def SameCounters (s t : State) : Prop :=
  t.rotations = s.rotations ∧ t.prevrotations = s.prevrotations

/-! ## Setpoint arithmetic -/

/-- C1: for a 16-bit selected setpoint, one clockwise event sets it to
`min (x + step) 65535` and one counterclockwise event to `max (x - step) 0`,
with step 16 (Slow) or 256 (Fast) for the voltage and 64 (Slow) or 256 (Fast)
for the current; the other setpoint, the selection and the mode are unchanged,
and a decrement from 0 gives 0. -/
theorem encoder_event_saturates (s : State) (hus : s.us < 65536) (his : s.is < 65536) :
    (s.setstate = SETSTATE_VOLTAGE → s.rotatestate = ROTATESTATE_SLOW →
      (eventEncoderClockwise s).us = min (s.us + 16) 65535 ∧
      ((eventEncoderCounterclockwise s).us : Int) = max ((s.us : Int) - 16) 0 ∧
      (eventEncoderClockwise s).is = s.is ∧ (eventEncoderCounterclockwise s).is = s.is) ∧
    (s.setstate = SETSTATE_VOLTAGE → s.rotatestate = ROTATESTATE_FAST →
      (eventEncoderClockwise s).us = min (s.us + 256) 65535 ∧
      ((eventEncoderCounterclockwise s).us : Int) = max ((s.us : Int) - 256) 0 ∧
      (eventEncoderClockwise s).is = s.is ∧ (eventEncoderCounterclockwise s).is = s.is) ∧
    (s.setstate = SETSTATE_CURRENT → s.rotatestate = ROTATESTATE_SLOW →
      (eventEncoderClockwise s).is = min (s.is + 64) 65535 ∧
      ((eventEncoderCounterclockwise s).is : Int) = max ((s.is : Int) - 64) 0 ∧
      (eventEncoderClockwise s).us = s.us ∧ (eventEncoderCounterclockwise s).us = s.us) ∧
    (s.setstate = SETSTATE_CURRENT → s.rotatestate = ROTATESTATE_FAST →
      (eventEncoderClockwise s).is = min (s.is + 256) 65535 ∧
      ((eventEncoderCounterclockwise s).is : Int) = max ((s.is : Int) - 256) 0 ∧
      (eventEncoderClockwise s).us = s.us ∧ (eventEncoderCounterclockwise s).us = s.us) ∧
    (s.setstate = SETSTATE_VOLTAGE → s.us = 0 → (eventEncoderCounterclockwise s).us = 0) ∧
    (s.setstate = SETSTATE_CURRENT → s.is = 0 → (eventEncoderCounterclockwise s).is = 0) ∧
    (eventEncoderClockwise s).setstate = s.setstate ∧
    (eventEncoderCounterclockwise s).setstate = s.setstate ∧
    (eventEncoderClockwise s).rotatestate = s.rotatestate ∧
    (eventEncoderCounterclockwise s).rotatestate = s.rotatestate := by
  have hmin : ∀ a : Nat, min a 65535 = if a ≤ 65535 then a else 65535 := fun a => min_def a 65535
  have hmax : ∀ a : Int, max a 0 = if a ≤ 0 then 0 else a := fun a => by
    omega
  refine ⟨?_, ?_, ?_, ?_, ?_, ?_, ?_, ?_, ?_, ?_⟩
  · intro h1 h2
    simp only [SETSTATE_VOLTAGE, ROTATESTATE_SLOW] at h1 h2
    simp only [eventEncoderClockwise, eventEncoderCounterclockwise, SETSTATE_VOLTAGE,
      ROTATESTATE_SLOW, h1, h2, if_true, hmin, hmax]
    refine ⟨?_, ?_, ?_, ?_⟩ <;> split_ifs <;> first | omega | (push_cast; omega) | simp
  · intro h1 h2
    simp only [SETSTATE_VOLTAGE, ROTATESTATE_FAST] at h1 h2
    simp only [eventEncoderClockwise, eventEncoderCounterclockwise, SETSTATE_VOLTAGE,
      ROTATESTATE_SLOW, h1, h2, if_true, one_ne_zero, if_false, hmin, hmax]
    refine ⟨?_, ?_, ?_, ?_⟩ <;> split_ifs <;> first | omega | (push_cast; omega) | simp
  · intro h1 h2
    simp only [SETSTATE_CURRENT, ROTATESTATE_SLOW] at h1 h2
    simp only [eventEncoderClockwise, eventEncoderCounterclockwise, SETSTATE_VOLTAGE,
      ROTATESTATE_SLOW, h1, h2, if_true, one_ne_zero, if_false, hmin, hmax]
    refine ⟨?_, ?_, ?_, ?_⟩ <;> split_ifs <;> first | omega | (push_cast; omega) | simp
  · intro h1 h2
    simp only [SETSTATE_CURRENT, ROTATESTATE_FAST] at h1 h2
    simp only [eventEncoderClockwise, eventEncoderCounterclockwise, SETSTATE_VOLTAGE,
      ROTATESTATE_SLOW, h1, h2, if_true, one_ne_zero, if_false, hmin, hmax]
    refine ⟨?_, ?_, ?_, ?_⟩ <;> split_ifs <;> first | omega | (push_cast; omega) | simp
  · intro h1 h2
    simp only [SETSTATE_VOLTAGE] at h1
    simp only [eventEncoderCounterclockwise, SETSTATE_VOLTAGE, h1, if_true]
    split_ifs <;> first | omega | simp
  · intro h1 h2
    simp only [SETSTATE_CURRENT] at h1
    simp only [eventEncoderCounterclockwise, SETSTATE_VOLTAGE, h1, one_ne_zero, if_false]
    split_ifs <;> first | omega | simp
  · simp only [eventEncoderClockwise]; split_ifs <;> rfl
  · simp only [eventEncoderCounterclockwise]; split_ifs <;> rfl
  · simp only [eventEncoderClockwise]; split_ifs <;> rfl
  · simp only [eventEncoderCounterclockwise]; split_ifs <;> rfl

/-- Witness of C1 at the initial state: a decrement from 0 stays at 0. -/
theorem encoder_event_saturates_witness :
    initState.us < 65536 ∧ initState.is < 65536 ∧
      (eventEncoderCounterclockwise initState).us = 0 :=
  ⟨by decide, by decide,
    (encoder_event_saturates initState (by decide) (by decide)).2.2.2.2.1 rfl rfl⟩

theorem clockwiseTimes_slow_voltage (s : State) (h0 : s.us = 0)
    (hv : s.setstate = SETSTATE_VOLTAGE) (hr : s.rotatestate = ROTATESTATE_SLOW) (k : Nat) :
    (clockwiseTimes k s).us = min (16 * k) 65535 ∧ (clockwiseTimes k s).is = s.is ∧
      (clockwiseTimes k s).setstate = SETSTATE_VOLTAGE ∧
      (clockwiseTimes k s).rotatestate = ROTATESTATE_SLOW := by
  induction k with
  | zero => exact ⟨by simp [clockwiseTimes, h0], rfl, hv, hr⟩
  | succ k ih =>
    obtain ⟨h1, h2, h3, h4⟩ := ih
    have hb : (clockwiseTimes k s).us < 65536 := by
      rw [h1, min_def]; split_ifs <;> omega
    simp only [SETSTATE_VOLTAGE, ROTATESTATE_SLOW] at h3 h4
    simp only [clockwiseTimes, eventEncoderClockwise, SETSTATE_VOLTAGE, ROTATESTATE_SLOW, h3, h4,
      if_true]
    rw [min_def] at h1
    rw [min_def]
    refine ⟨?_, ?_, ?_, ?_⟩ <;> split_ifs at h1 ⊢ <;>
      first | omega | (dsimp only; omega) | simp [SETSTATE_VOLTAGE, ROTATESTATE_SLOW, *]

/-- C8: from voltage setpoint 0 with Voltage selected in Slow mode, after `k`
clockwise events the voltage setpoint is `min (16 * k) 65535`; the values never
decrease, 4096 events give exactly 65535, and the current setpoint is unchanged. -/
theorem clockwise_from_zero (s : State) (h0 : s.us = 0)
    (hv : s.setstate = SETSTATE_VOLTAGE) (hr : s.rotatestate = ROTATESTATE_SLOW) :
    (∀ k, (clockwiseTimes k s).us = min (16 * k) 65535) ∧
    (∀ j k, j ≤ k → (clockwiseTimes j s).us ≤ (clockwiseTimes k s).us) ∧
    (clockwiseTimes 4096 s).us = 65535 ∧
    (∀ k, (clockwiseTimes k s).is = s.is) := by
  have key := clockwiseTimes_slow_voltage s h0 hv hr
  refine ⟨fun k => (key k).1, ?_, ?_, fun k => (key k).2.1⟩
  · intro j k hjk
    rw [(key j).1, (key k).1, min_def, min_def]
    split_ifs <;> omega
  · rw [(key 4096).1, min_def]
    split_ifs <;> omega

/-- Witness of C8 at the initial state. -/
theorem clockwise_from_zero_witness :
    initState.us = 0 ∧ (clockwiseTimes 4096 initState).us = 65535 :=
  ⟨rfl, (clockwise_from_zero initState rfl rfl rfl).2.2.1⟩

/-! ## The quadrature decoder -/

theorem encoderStep_cw (s : State) (h : EncHist) (temp : Nat)
    (h1 : matchClockwise (encPush h temp) = true) :
    encoderStep s h temp =
      (bumpRotations (eventEncoderClockwise s), encReset, [Event.Clockwise]) := by
  have hr : matchCounterclockwise encReset = false := by decide
  simp only [encoderStep, h1, if_true, hr, Bool.false_eq_true, if_false]

theorem encoderStep_ccw (s : State) (h : EncHist) (temp : Nat)
    (h1 : matchClockwise (encPush h temp) = false)
    (h2 : matchCounterclockwise (encPush h temp) = true) :
    encoderStep s h temp =
      (bumpRotations (eventEncoderCounterclockwise s), encReset, [Event.CounterClockwise]) := by
  simp only [encoderStep, h1, h2, if_true, Bool.false_eq_true, if_false, List.nil_append]

theorem encoderStep_idle (s : State) (h : EncHist) (temp : Nat)
    (h1 : matchClockwise (encPush h temp) = false)
    (h2 : matchCounterclockwise (encPush h temp) = false) :
    encoderStep s h temp = (s, encPush h temp, []) := by
  simp only [encoderStep, h1, h2, Bool.false_eq_true, if_false]

theorem encoderStep_no_match (s : State) (h : EncHist) (temp : Nat) :
    matchClockwise (encoderStep s h temp).2.1 = false ∧
      matchCounterclockwise (encoderStep s h temp).2.1 = false := by
  cases h1 : matchClockwise (encPush h temp)
  · cases h2 : matchCounterclockwise (encPush h temp)
    · rw [encoderStep_idle s h temp h1 h2]
      exact ⟨h1, h2⟩
    · rw [encoderStep_ccw s h temp h1 h2]
      exact ⟨rfl, rfl⟩
  · rw [encoderStep_cw s h temp h1]
    exact ⟨rfl, rfl⟩

theorem encoderStep_same (s : State) (h : EncHist) (h1 : matchClockwise h = false)
    (h2 : matchCounterclockwise h = false) : encoderStep s h h.e0 = (s, h, []) := by
  have hp : encPush h h.e0 = h := by simp [encPush]
  rw [encoderStep_idle s h h.e0 (by rw [hp]; exact h1) (by rw [hp]; exact h2), hp]

theorem decodeSamples_no_match (samples : List Nat) : ∀ (s : State) (h : EncHist),
    matchClockwise h = false → matchCounterclockwise h = false →
    matchClockwise (decodeSamples s h samples).2.1 = false ∧
      matchCounterclockwise (decodeSamples s h samples).2.1 = false := by
  induction samples with
  | nil => intro s h h1 h2; exact ⟨h1, h2⟩
  | cons x xs ih =>
    intro s h _ _
    simp only [decodeSamples]
    exact ih _ _ (encoderStep_no_match s h x).1 (encoderStep_no_match s h x).2

/-- C7: in every decoder state reached from the reset history by any sample
stream, the history matches neither reference pattern; a sample equal to the
code recorded last leaves state and history unchanged and emits no event, and
a sample that emits an event differs from the code recorded last. -/
theorem bounce_is_ignored (s0 : State) (samples : List Nat) :
    matchClockwise (decodeSamples s0 encReset samples).2.1 = false ∧
    matchCounterclockwise (decodeSamples s0 encReset samples).2.1 = false ∧
    encoderStep (decodeSamples s0 encReset samples).1 (decodeSamples s0 encReset samples).2.1
        (decodeSamples s0 encReset samples).2.1.e0 =
      ((decodeSamples s0 encReset samples).1, (decodeSamples s0 encReset samples).2.1, []) ∧
    ∀ temp, (encoderStep (decodeSamples s0 encReset samples).1
        (decodeSamples s0 encReset samples).2.1 temp).2.2 ≠ [] →
      temp ≠ (decodeSamples s0 encReset samples).2.1.e0 := by
  have hm := decodeSamples_no_match samples s0 encReset (by decide) (by decide)
  refine ⟨hm.1, hm.2, encoderStep_same _ _ hm.1 hm.2, ?_⟩
  intro temp hne heq
  apply hne
  rw [heq, encoderStep_same _ _ hm.1 hm.2]

theorem decodeSamples_append (xs ys : List Nat) : ∀ (s : State) (h : EncHist),
    decodeSamples s h (xs ++ ys) =
      ((decodeSamples (decodeSamples s h xs).1 (decodeSamples s h xs).2.1 ys).1,
       (decodeSamples (decodeSamples s h xs).1 (decodeSamples s h xs).2.1 ys).2.1,
       (decodeSamples s h xs).2.2 ++
         (decodeSamples (decodeSamples s h xs).1 (decodeSamples s h xs).2.1 ys).2.2) := by
  induction xs with
  | nil => intro s h; simp [decodeSamples]
  | cons x xs ih => intro s h; simp [decodeSamples, ih]

theorem decodeSamples_repeat (n : Nat) (s : State) (h : EncHist)
    (h1 : matchClockwise h = false) (h2 : matchCounterclockwise h = false) :
    decodeSamples s h (List.replicate n h.e0) = (s, h, List.replicate n []) := by
  induction n with
  | zero => simp [decodeSamples]
  | succ n ih => simp [List.replicate_succ, decodeSamples, encoderStep_same s h h1 h2, ih]

theorem decodeSamples_segment (n x : Nat) (s : State) (h : EncHist) (hx : x ≠ h.e0)
    (h1 : matchClockwise (encPush h x) = false)
    (h2 : matchCounterclockwise (encPush h x) = false) :
    decodeSamples s h (List.replicate (n + 1) x) =
      (s, encPush h x, List.replicate (n + 1) []) := by
  have he : (encPush h x).e0 = x := by simp [encPush, hx]
  have hrep := decodeSamples_repeat n s (encPush h x) h1 h2
  rw [he] at hrep
  simp only [List.replicate_succ, decodeSamples, encoderStep_idle s h x h1 h2, hrep]

theorem decodeSamples_final_cw (n : Nat) (s : State) (h : EncHist)
    (h1 : matchClockwise (encPush h 3) = true) :
    decodeSamples s h (List.replicate (n + 1) 3) =
      (bumpRotations (eventEncoderClockwise s), encReset,
        [Event.Clockwise] :: List.replicate n []) := by
  have hrep := decodeSamples_repeat n (bumpRotations (eventEncoderClockwise s)) encReset
    (by decide) (by decide)
  have he : encReset.e0 = 3 := rfl
  rw [he] at hrep
  simp only [List.replicate_succ, decodeSamples, encoderStep_cw s h 3 h1, hrep]

theorem decodeSamples_final_ccw (n : Nat) (s : State) (h : EncHist)
    (h1 : matchClockwise (encPush h 3) = false)
    (h2 : matchCounterclockwise (encPush h 3) = true) :
    decodeSamples s h (List.replicate (n + 1) 3) =
      (bumpRotations (eventEncoderCounterclockwise s), encReset,
        [Event.CounterClockwise] :: List.replicate n []) := by
  have hrep := decodeSamples_repeat n (bumpRotations (eventEncoderCounterclockwise s)) encReset
    (by decide) (by decide)
  have he : encReset.e0 = 3 := rfl
  rw [he] at hrep
  simp only [List.replicate_succ, decodeSamples, encoderStep_ccw s h 3 h1 h2, hrep]

/-- C6: from the reset history, a stream made of the codes 2, 0, 1, 3 in this
order, each repeated at least once, makes the decoder call the clockwise
handler exactly once, on the first sample 3, and no other handler, and leaves
the history reset; the stream 1, 0, 2, 3 does the same for the
counterclockwise handler. -/
theorem pattern_emits_once (s : State) (a b c d : Nat) :
    decodeSamples s encReset
        (List.replicate (a + 1) 2 ++ (List.replicate (b + 1) 0 ++
          (List.replicate (c + 1) 1 ++ List.replicate (d + 1) 3))) =
      (bumpRotations (eventEncoderClockwise s), encReset,
        List.replicate (a + 1) [] ++ (List.replicate (b + 1) [] ++
          (List.replicate (c + 1) [] ++ [Event.Clockwise] :: List.replicate d []))) ∧
    decodeSamples s encReset
        (List.replicate (a + 1) 1 ++ (List.replicate (b + 1) 0 ++
          (List.replicate (c + 1) 2 ++ List.replicate (d + 1) 3))) =
      (bumpRotations (eventEncoderCounterclockwise s), encReset,
        List.replicate (a + 1) [] ++ (List.replicate (b + 1) [] ++
          (List.replicate (c + 1) [] ++ [Event.CounterClockwise] :: List.replicate d []))) := by
  constructor
  · rw [decodeSamples_append, decodeSamples_segment a 2 s encReset (by decide) rfl rfl]
    dsimp only
    rw [decodeSamples_append, decodeSamples_segment b 0 s (encPush encReset 2) (by decide) rfl rfl]
    dsimp only
    rw [decodeSamples_append, decodeSamples_segment c 1 s (encPush (encPush encReset 2) 0) (by decide) rfl rfl]
    dsimp only
    rw [decodeSamples_final_cw d s (encPush (encPush (encPush encReset 2) 0) 1) rfl]
  · rw [decodeSamples_append, decodeSamples_segment a 1 s encReset (by decide) rfl rfl]
    dsimp only
    rw [decodeSamples_append, decodeSamples_segment b 0 s (encPush encReset 1) (by decide) rfl rfl]
    dsimp only
    rw [decodeSamples_append, decodeSamples_segment c 2 s (encPush (encPush encReset 1) 0) (by decide) rfl rfl]
    dsimp only
    rw [decodeSamples_final_ccw d s (encPush (encPush (encPush encReset 1) 0) 2) rfl rfl]

/-! ## The chunked write -/

theorem wrapInt_small (x : Int) (h1 : -32768 ≤ x) (h2 : x < 32768) : wrapInt x = x := by
  unfold wrapInt
  omega

theorem copyLoop_eq (data : List Nat) (n : Nat) : ∀ (i : Nat) (s : State) (c : Nat),
    s.currentPosition = (c : Int) → c + n ≤ 8 → s.pss.length = 8 → i + n ≤ data.length →
    copyLoop data n i s = some { s with
      pss := s.pss.take c ++ ((data.drop i).take n ++ s.pss.drop (c + n))
      currentPosition := ((c + n : Nat) : Int) } := by
  induction n with
  | zero =>
    intro i s c hc _ _ _
    cases s
    simp only [copyLoop, List.take_zero, List.nil_append, Nat.add_zero, List.take_append_drop]
    simp only at hc
    rw [hc]
  | succ n ih =>
    intro i s c hc hcn hlen hin
    have hi : i < data.length := by omega
    have hcond : 0 ≤ s.currentPosition ∧ s.currentPosition < 8 := by omega
    have hw : wrapInt (s.currentPosition + 1) = ((c + 1 : Nat) : Int) := by
      rw [wrapInt_small _ (by omega) (by omega), hc]; push_cast; rfl
    have hnat : s.currentPosition.toNat = c := by omega
    simp only [copyLoop, List.getElem?_eq_getElem hi, hcond, and_self, if_true, hw, hnat]
    rw [ih (i + 1) _ (c + 1) rfl (by omega) (by simpa using hlen) (by omega)]
    have h1 : (s.pss.set c data[i]).take (c + 1) = s.pss.take c ++ [data[i]] := by
      rw [List.set_eq_take_append_cons_drop, if_pos (by omega)]
      rw [List.take_append_eq_append_take]
      simp [List.length_take, hlen, Nat.min_eq_left (by omega : c ≤ 8)]
    have h2 : (s.pss.set c data[i]).drop (c + 1 + n) = s.pss.drop (c + (n + 1)) := by
      rw [List.drop_set_of_lt _ _ (by omega)]
      congr 1; omega
    have h3 : (data.drop i).take (n + 1) = data[i] :: (data.drop (i + 1)).take n := by
      rw [List.drop_eq_getElem_cons hi, List.take_succ_cons]
    simp only [h1, h2, h3, List.append_assoc, List.singleton_append, List.cons_append]
    congr 2
    push_cast; omega

theorem usbFunctionWrite_last (s : State) (d : List Nat) (c r : Nat)
    (hc : s.currentPosition = (c : Int)) (hr : s.bytesRemaining = (r : Int))
    (hcr : c + r ≤ 8) (hlen : s.pss.length = 8) (hd : r ≤ d.length) :
    usbFunctionWrite s d d.length = some ({ s with
      pss := s.pss.take c ++ (d.take r ++ s.pss.drop (c + r))
      bytesRemaining := 0
      currentPosition := ((c + r : Nat) : Int)
      us := voltage_value (s.pss.take c ++ (d.take r ++ s.pss.drop (c + r)))
      is := amperage_value (s.pss.take c ++ (d.take r ++ s.pss.drop (c + r)))
      outstate := output_state (s.pss.take c ++ (d.take r ++ s.pss.drop (c + r))) }, 1) := by
  have hl : (if (d.length : Int) > s.bytesRemaining then (s.bytesRemaining % 256).toNat
      else d.length) = r := by
    split_ifs <;> omega
  have hw : wrapInt (s.bytesRemaining - (r : Int)) = 0 := by
    rw [wrapInt_small _ (by omega) (by omega)]; omega
  simp only [usbFunctionWrite, hl, hw]
  rw [copyLoop_eq d r 0 { s with bytesRemaining := 0 } c hc hcr hlen (by omega)]
  simp only [List.drop_zero, if_true]

theorem usbFunctionWrite_part (s : State) (d : List Nat) (c r : Nat)
    (hc : s.currentPosition = (c : Int)) (hr : s.bytesRemaining = (r : Int))
    (hcr : c + r ≤ 8) (hlen : s.pss.length = 8) (hd : d.length < r) :
    usbFunctionWrite s d d.length = some ({ s with
      pss := s.pss.take c ++ (d ++ s.pss.drop (c + d.length))
      bytesRemaining := ((r - d.length : Nat) : Int)
      currentPosition := ((c + d.length : Nat) : Int) }, 0) := by
  have hl : (if (d.length : Int) > s.bytesRemaining then (s.bytesRemaining % 256).toNat
      else d.length) = d.length := by
    split_ifs <;> omega
  have hw : wrapInt (s.bytesRemaining - (d.length : Int)) = ((r - d.length : Nat) : Int) := by
    rw [wrapInt_small _ (by omega) (by omega)]; omega
  have hne : ¬ ((r - d.length : Nat) : Int) = 0 := by omega
  simp only [usbFunctionWrite, hl, hw]
  rw [copyLoop_eq d d.length 0 { s with bytesRemaining := ((r - d.length : Nat) : Int) } c hc
    (by omega) hlen (by omega)]
  simp only [List.drop_zero, List.take_length, hne, if_false]

theorem expectedFlags_full (cs : List (List Nat)) : ∀ (a b : Nat), 8 ≤ a → 8 ≤ b →
    expectedFlags a cs = expectedFlags b cs := by
  induction cs with
  | nil => intro a b _ _; rfl
  | cons d cs ih =>
    intro a b ha hb
    simp only [expectedFlags]
    rw [ih (a + d.length) (b + d.length) (by omega) (by omega)]
    rw [if_pos (by omega), if_pos (by omega)]

theorem writeChunks_spec (cs : List (List Nat)) : ∀ (s : State) (c r : Nat),
    s.currentPosition = (c : Int) → s.bytesRemaining = (r : Int) → c + r = 8 →
    s.pss.length = 8 →
    ∃ s1, writeChunks s cs = some (s1, expectedFlags c cs) ∧
      s1.pss = s.pss.take c ++
        (cs.flatten.take r ++ s.pss.drop (c + min cs.flatten.length r)) ∧
      s1.currentPosition = ((c + min cs.flatten.length r : Nat) : Int) ∧
      s1.bytesRemaining = ((r - cs.flatten.length : Nat) : Int) ∧
      (cs.flatten.length < r ∨ cs = [] → SameSetpoints s s1) ∧
      (r ≤ cs.flatten.length → cs ≠ [] → Committed s1) := by
  induction cs with
  | nil =>
    intro s c r hc hr _ _
    refine ⟨s, rfl, ?_, ?_, ?_, fun _ => ⟨rfl, rfl, rfl⟩, fun _ h => absurd rfl h⟩
    · simp
    · simpa using hc
    · simpa using hr
  | cons d cs ih =>
    intro s c r hc hr hcr hlen
    have hcl : (s.pss.take c).length = c := by
      rw [List.length_take, hlen]; omega
    by_cases hd : r ≤ d.length
    · -- this chunk completes the record
      have hw := usbFunctionWrite_last s d c r hc hr (by omega) hlen hd
      have hp : (s.pss.take c ++ (d.take r ++ s.pss.drop (c + r))).length = 8 := by
        simp only [List.length_append, List.length_take, List.length_drop, hlen]; omega
      obtain ⟨sA, hsA⟩ : ∃ sA : State, sA = { s with
          pss := s.pss.take c ++ (d.take r ++ s.pss.drop (c + r))
          bytesRemaining := 0
          currentPosition := ((c + r : Nat) : Int)
          us := voltage_value (s.pss.take c ++ (d.take r ++ s.pss.drop (c + r)))
          is := amperage_value (s.pss.take c ++ (d.take r ++ s.pss.drop (c + r)))
          outstate := output_state (s.pss.take c ++ (d.take r ++ s.pss.drop (c + r))) } :=
        ⟨_, rfl⟩
      rw [← hsA] at hw
      have hAp : sA.pss = s.pss.take c ++ (d.take r ++ s.pss.drop (c + r)) := by rw [hsA]
      have hAc : sA.currentPosition = ((c + r : Nat) : Int) := by rw [hsA]
      have hAr : sA.bytesRemaining = ((0 : Nat) : Int) := by rw [hsA]; rfl
      have hAcom : Committed sA := by rw [hsA]; exact ⟨rfl, rfl, rfl⟩
      obtain ⟨s1, h1, h2, h3, h4, h5, h6⟩ :=
        ih sA (c + r) 0 hAc hAr (by omega) (by rw [hAp]; exact hp)
      have hpss : s1.pss = sA.pss := by
        rw [h2]
        simp only [Nat.min_zero, Nat.add_zero, List.take_zero, List.nil_append]
        exact List.take_append_drop _ _
      refine ⟨s1, ?_, ?_, ?_, ?_, ?_, ?_⟩
      · simp only [writeChunks, hw, h1, expectedFlags]
        rw [if_pos (by omega), expectedFlags_full cs (c + r) (c + d.length) (by omega) (by omega)]
      · rw [hpss, hAp, List.flatten_cons, List.take_append_of_le_length hd, List.length_append,
          Nat.min_eq_right (by omega)]
      · rw [h3, List.flatten_cons, List.length_append]
        congr 1
        omega
      · rw [h4, List.flatten_cons, List.length_append]
        congr 1
        omega
      · rintro (h | h)
        · rw [List.flatten_cons, List.length_append] at h
          omega
        · exact absurd h (List.cons_ne_nil _ _)
      · intro _ _
        by_cases hcs : cs = []
        · obtain ⟨e1, e2, e3⟩ := h5 (Or.inr hcs)
          obtain ⟨f1, f2, f3⟩ := hAcom
          exact ⟨by rw [e1, hpss, f1], by rw [e2, hpss, f2], by rw [e3, hpss, f3]⟩
        · exact h6 (Nat.zero_le _) hcs
    · -- the record is still incomplete after this chunk
      have hd1 : d.length < r := by omega
      have hw := usbFunctionWrite_part s d c r hc hr (by omega) hlen hd1
      have hp : (s.pss.take c ++ (d ++ s.pss.drop (c + d.length))).length = 8 := by
        simp only [List.length_append, List.length_take, List.length_drop, hlen]; omega
      obtain ⟨sB, hsB⟩ : ∃ sB : State, sB = { s with
          pss := s.pss.take c ++ (d ++ s.pss.drop (c + d.length))
          bytesRemaining := ((r - d.length : Nat) : Int)
          currentPosition := ((c + d.length : Nat) : Int) } := ⟨_, rfl⟩
      rw [← hsB] at hw
      have hBp : sB.pss = s.pss.take c ++ (d ++ s.pss.drop (c + d.length)) := by rw [hsB]
      have hBc : sB.currentPosition = ((c + d.length : Nat) : Int) := by rw [hsB]
      have hBr : sB.bytesRemaining = ((r - d.length : Nat) : Int) := by rw [hsB]
      have hBs : SameSetpoints s sB := by rw [hsB]; exact ⟨rfl, rfl, rfl⟩
      obtain ⟨s1, h1, h2, h3, h4, h5, h6⟩ :=
        ih sB (c + d.length) (r - d.length) hBc hBr (by omega) (by rw [hBp]; exact hp)
      refine ⟨s1, ?_, ?_, ?_, ?_, ?_, ?_⟩
      · simp only [writeChunks, hw, h1, expectedFlags]
        rw [if_neg (by omega)]
      · rw [h2, hBp]
        have ha : (s.pss.take c ++ (d ++ s.pss.drop (c + d.length))).take (c + d.length)
            = s.pss.take c ++ d := by
          rw [← List.append_assoc]
          exact List.take_left' (by rw [List.length_append, hcl])
        have hb : (s.pss.take c ++ (d ++ s.pss.drop (c + d.length))).drop
            (c + d.length + min cs.flatten.length (r - d.length))
            = s.pss.drop (c + min (d ++ cs.flatten).length r) := by
          rw [← List.append_assoc]
          have hx : c + d.length = (s.pss.take c ++ d).length := by
            rw [List.length_append, hcl]
          rw [hx, List.drop_append, List.drop_drop, ← hx, List.length_append]
          congr 1
          omega
        have hc2 : (d ++ cs.flatten).take r = d ++ cs.flatten.take (r - d.length) := by
          rw [List.take_append_eq_append_take, List.take_of_length_le (by omega)]
        rw [ha, hb, List.flatten_cons, hc2]
        simp only [List.append_assoc]
      · rw [h3, List.flatten_cons, List.length_append]
        congr 1
        omega
      · rw [h4, List.flatten_cons, List.length_append]
        congr 1
        omega
      · intro h
        have h7 : cs.flatten.length < r - d.length ∨ cs = [] := by
          rcases h with h | h
          · rw [List.flatten_cons, List.length_append] at h
            left; omega
          · exact absurd h (List.cons_ne_nil _ _)
        obtain ⟨e1, e2, e3⟩ := h5 h7
        obtain ⟨f1, f2, f3⟩ := hBs
        exact ⟨by rw [e1, f1], by rw [e2, f2], by rw [e3, f3]⟩
      · intro h _
        rw [List.flatten_cons, List.length_append] at h
        have hne : cs ≠ [] := by
          intro hcs
          rw [hcs] at h
          simp at h
          omega
        exact h6 (by omega) hne

/-! ## What the transfer handlers leave alone -/

theorem copyLoop_sameLocal (data : List Nat) (n : Nat) : ∀ (i : Nat) (s t : State),
    copyLoop data n i s = some t → SameLocal s t := by
  induction n with
  | zero =>
    intro i s t h
    simp only [copyLoop, Option.some.injEq] at h
    subst h
    exact ⟨rfl, rfl, rfl, rfl, rfl, rfl, rfl⟩
  | succ n ih =>
    intro i s t h
    simp only [copyLoop] at h
    cases hd : data[i]? with
    | none => simp [hd] at h
    | some b =>
      simp only [hd] at h
      split_ifs at h
      have hs := ih _ _ _ h
      exact hs

theorem usbFunctionWrite_sameLocal (s : State) (d : List Nat) (len : Nat) (r : State × Nat)
    (h : usbFunctionWrite s d len = some r) : SameLocal s r.1 := by
  simp only [usbFunctionWrite] at h
  split at h
  · exact absurd h (by simp)
  · rename_i s2 hs2
    have hl := copyLoop_sameLocal _ _ _ _ _ hs2
    split_ifs at h
    · simp only [Option.some.injEq] at h
      subst h
      exact hl
    · simp only [Option.some.injEq] at h
      subst h
      exact hl

theorem usbFunctionSetup_sameLocal (s : State) (d : List Nat) :
    SameLocal s (usbFunctionSetup s d).st ∧ SameSetpoints s (usbFunctionSetup s d).st := by
  simp only [usbFunctionSetup]
  split_ifs <;> exact ⟨⟨rfl, rfl, rfl, rfl, rfl, rfl, rfl⟩, ⟨rfl, rfl, rfl⟩⟩

theorem SameLocal.trans {s t u : State} (h1 : SameLocal s t) (h2 : SameLocal t u) :
    SameLocal s u := by
  obtain ⟨a1, a2, a3, a4, a5, a6, a7⟩ := h1
  obtain ⟨b1, b2, b3, b4, b5, b6, b7⟩ := h2
  exact ⟨b1.trans a1, b2.trans a2, b3.trans a3, b4.trans a4, b5.trans a5, b6.trans a6,
    b7.trans a7⟩

theorem writeChunks_sameLocal (cs : List (List Nat)) : ∀ (s : State) (r : State × List Nat),
    writeChunks s cs = some r → SameLocal s r.1 := by
  induction cs with
  | nil =>
    intro s r h
    simp only [writeChunks, Option.some.injEq] at h
    subst h
    exact ⟨rfl, rfl, rfl, rfl, rfl, rfl, rfl⟩
  | cons d cs ih =>
    intro s r h
    simp only [writeChunks] at h
    cases hw : usbFunctionWrite s d d.length with
    | none => simp [hw] at h
    | some r1 =>
      obtain ⟨s1, f1⟩ := r1
      simp only [hw] at h
      cases hc : writeChunks s1 cs with
      | none => simp [hc] at h
      | some r2 =>
        obtain ⟨s2, f2⟩ := r2
        simp only [hc, Option.some.injEq] at h
        subst h
        exact (usbFunctionWrite_sameLocal s d d.length _ hw).trans (ih s1 (s2, f2) hc)

theorem usbPoll_sameLocal (calls : List UsbCall) : ∀ (s t : State),
    usbPoll s calls = some t → SameLocal s t := by
  induction calls with
  | nil =>
    intro s t h
    simp only [usbPoll, Option.some.injEq] at h
    subst h
    exact ⟨rfl, rfl, rfl, rfl, rfl, rfl, rfl⟩
  | cons c calls ih =>
    intro s t h
    cases c with
    | setup d =>
      simp only [usbPoll] at h
      exact (usbFunctionSetup_sameLocal s d).1.trans (ih _ _ h)
    | write d =>
      simp only [usbPoll] at h
      cases hw : usbFunctionWrite s d d.length with
      | none => simp [hw] at h
      | some r1 =>
        simp only [hw] at h
        exact (usbFunctionWrite_sameLocal s d d.length _ hw).trans (ih _ _ h)

/-! ## The write session stays inside the record -/

theorem usbFunctionWrite_sessionOk (s : State) (d : List Nat) (h : SessionOk s) :
    ∃ r, usbFunctionWrite s d d.length = some r ∧ SessionOk r.1 := by
  obtain ⟨hlen, hc0, hr0, hcr⟩ := h
  obtain ⟨c, hc⟩ := Int.eq_ofNat_of_zero_le hc0
  obtain ⟨r, hr⟩ := Int.eq_ofNat_of_zero_le hr0
  have hcr1 : c + r ≤ 8 := by omega
  by_cases hd : r ≤ d.length
  · refine ⟨_, usbFunctionWrite_last s d c r hc hr hcr1 hlen hd, ?_, ?_, ?_, ?_⟩
    · simp only [List.length_append, List.length_take, List.length_drop, hlen]; omega
    · simp only; omega
    · simp only; omega
    · simp only; omega
  · refine ⟨_, usbFunctionWrite_part s d c r hc hr hcr1 hlen (by omega), ?_, ?_, ?_, ?_⟩
    · simp only [List.length_append, List.length_take, List.length_drop, hlen]; omega
    · simp only; omega
    · simp only; omega
    · simp only; omega

theorem usbFunctionSetup_sessionOk (s : State) (d : List Nat) (h : SessionOk s) :
    SessionOk (usbFunctionSetup s d).st := by
  obtain ⟨hlen, hc0, hr0, hcr⟩ := h
  simp only [usbFunctionSetup]
  split_ifs
  · exact ⟨by simp [set_output_state, set_voltage_value, set_amperage_value, hlen], hc0, hr0, hcr⟩
  · exact ⟨hlen, by simp, by simp, by simp⟩
  · exact ⟨hlen, hc0, hr0, hcr⟩
  · exact ⟨hlen, hc0, hr0, hcr⟩

theorem usbPoll_sessionOk (calls : List UsbCall) : ∀ (s : State), SessionOk s →
    ∃ t, usbPoll s calls = some t ∧ SessionOk t := by
  induction calls with
  | nil => intro s h; exact ⟨s, rfl, h⟩
  | cons c calls ih =>
    intro s h
    cases c with
    | setup d =>
      simp only [usbPoll]
      exact ih _ (usbFunctionSetup_sessionOk s d h)
    | write d =>
      obtain ⟨r, hr, hok⟩ := usbFunctionWrite_sessionOk s d h
      simp only [usbPoll, hr]
      exact ih _ hok

/-! ## Feature-report transfers -/

theorem usbFunctionSetup_setReport (s : State) :
    usbFunctionSetup s setReport =
      { st := { s with bytesRemaining := 8, currentPosition := 0 }, len := USB_NO_MSG, msg := [] } := by
  have h1 : setReport.getD 0 0 &&& USBRQ_TYPE_MASK = USBRQ_TYPE_CLASS := by decide
  have h2 : ¬ setReport.getD 1 0 = USBRQ_HID_GET_REPORT := by decide
  have h3 : setReport.getD 1 0 = USBRQ_HID_SET_REPORT := by decide
  unfold usbFunctionSetup
  rw [if_pos h1, if_neg h2, if_pos h3]

theorem usbFunctionSetup_getReport (s : State) :
    usbFunctionSetup s getReport =
      { st := { s with pss := set_output_state (set_voltage_value
                  (set_amperage_value s.pss s.im) s.um) s.outstate }
        len := 8
        msg := set_output_state (set_voltage_value
                  (set_amperage_value s.pss s.im) s.um) s.outstate } := by
  have h1 : getReport.getD 0 0 &&& USBRQ_TYPE_MASK = USBRQ_TYPE_CLASS := by decide
  have h2 : getReport.getD 1 0 = USBRQ_HID_GET_REPORT := by decide
  unfold usbFunctionSetup
  rw [if_pos h1, if_pos h2]

theorem length_eight (p : List Nat) (h : p.length = 8) :
    ∃ a0 a1 a2 a3 a4 a5 a6 a7, p = [a0, a1, a2, a3, a4, a5, a6, a7] := by
  match p, h with
  | [a0, a1, a2, a3, a4, a5, a6, a7], _ => exact ⟨a0, a1, a2, a3, a4, a5, a6, a7, rfl⟩

theorem getReport_msg (s : State) (h : s.pss.length = 8) :
    (usbFunctionSetup s getReport).msg =
      [s.outstate % 256, s.um % 256, s.um / 256 % 256, s.im % 256, s.im / 256 % 256]
        ++ s.pss.drop 5 := by
  obtain ⟨a0, a1, a2, a3, a4, a5, a6, a7, hp⟩ := length_eight s.pss h
  rw [usbFunctionSetup_getReport, hp]
  rfl

theorem writeChunks_after_setReport (s : State) (cs : List (List Nat))
    (hlen : s.pss.length = 8) :
    ∃ s1, writeChunks (usbFunctionSetup s setReport).st cs = some (s1, expectedFlags 0 cs) ∧
      s1.pss = cs.flatten.take 8 ++ s.pss.drop (min cs.flatten.length 8) ∧
      s1.currentPosition = ((min cs.flatten.length 8 : Nat) : Int) ∧
      s1.bytesRemaining = ((8 - cs.flatten.length : Nat) : Int) ∧
      (cs.flatten.length < 8 → SameSetpoints s s1) ∧
      (8 ≤ cs.flatten.length → Committed s1) ∧
      SameLocal s s1 := by
  rw [usbFunctionSetup_setReport]
  obtain ⟨s1, h1, h2, h3, h4, h5, h6⟩ :=
    writeChunks_spec cs { s with bytesRemaining := 8, currentPosition := 0 } 0 8 rfl rfl rfl hlen
  refine ⟨s1, h1, ?_, ?_, h4, fun h => h5 (Or.inl h), ?_, writeChunks_sameLocal cs _ _ h1⟩
  · rw [h2]; simp
  · rw [h3]; simp
  · intro h
    refine h6 h ?_
    intro hcs
    rw [hcs] at h
    simp at h

/-- C2: after a `SET_REPORT` setup (`bytesRemaining = 8`, `currentPosition = 0`),
for all source bytes `b0..b7` and every split of them into consecutive chunks,
the chunked write succeeds and ends in one state fixed by the bytes: the record
holds `b0..b7`, `outstate = b0`, `us = b1 + 256 * b2`, `is = b3 + 256 * b4`, the
session is closed and the other variables are as before; the returned flag is 1
from the chunk that brings the total to 8 and 0 on every chunk before it. -/
theorem chunking_is_transparent (s : State) (cs : List (List Nat))
    (b0 b1 b2 b3 b4 b5 b6 b7 : Nat) (hlen : s.pss.length = 8)
    (hcs : cs.flatten = [b0, b1, b2, b3, b4, b5, b6, b7]) :
    (usbFunctionSetup s setReport).st.bytesRemaining = 8 ∧
    (usbFunctionSetup s setReport).st.currentPosition = 0 ∧
    ∃ s1, writeChunks (usbFunctionSetup s setReport).st cs = some (s1, expectedFlags 0 cs) ∧
      s1.pss = [b0, b1, b2, b3, b4, b5, b6, b7] ∧
      s1.outstate = b0 ∧ s1.us = b1 + 256 * b2 ∧ s1.is = b3 + 256 * b4 ∧
      s1.bytesRemaining = 0 ∧ s1.currentPosition = 8 ∧ SameLocal s s1 := by
  refine ⟨by rw [usbFunctionSetup_setReport], by rw [usbFunctionSetup_setReport], ?_⟩
  obtain ⟨s1, h1, h2, h3, h4, _, h6, h7⟩ := writeChunks_after_setReport s cs hlen
  have hl : cs.flatten.length = 8 := by rw [hcs]; rfl
  have hp : s1.pss = [b0, b1, b2, b3, b4, b5, b6, b7] := by
    rw [h2, hl, hcs, List.drop_of_length_le (by omega)]
    rfl
  obtain ⟨c1, c2, c3⟩ := h6 (by omega)
  rw [hp] at c1 c2 c3
  refine ⟨s1, h1, hp, c3, c1, c2, ?_, ?_, h7⟩
  · rw [h4, hl]; rfl
  · rw [h3, hl]; rfl

/-- Witness of C2: the chunks `[1,2,3]`, `[4,5,6]`, `[7,8]` from the initial state. -/
theorem chunking_is_transparent_witness :
    initState.pss.length = 8 ∧
    ∃ s1, writeChunks (usbFunctionSetup initState setReport).st [[1, 2, 3], [4, 5, 6], [7, 8]]
        = some (s1, expectedFlags 0 [[1, 2, 3], [4, 5, 6], [7, 8]]) ∧
      s1.pss = [1, 2, 3, 4, 5, 6, 7, 8] ∧ s1.us = 2 + 256 * 3 :=
  ⟨rfl,
    (chunking_is_transparent initState [[1, 2, 3], [4, 5, 6], [7, 8]] 1 2 3 4 5 6 7 8 rfl rfl).2.2.imp
      fun _ h => ⟨h.1, h.2.1, h.2.2.2.1⟩⟩

/-- C3: after a `SET_REPORT` setup, chunks that total 8 bytes or more are
accepted and only the first 8 bytes are committed: whatever the chunks, no store
leaves the record, `currentPosition` stays within 0..8 and
`currentPosition + bytesRemaining = 8`; the final record, setpoints and output
flag are those obtained by writing the first 8 bytes alone. -/
theorem overrun_is_truncated (s : State) (cs : List (List Nat)) (hlen : s.pss.length = 8)
    (hcs : 8 ≤ cs.flatten.length) :
    (∀ cs1 : List (List Nat), ∃ s2 fl,
      writeChunks (usbFunctionSetup s setReport).st cs1 = some (s2, fl) ∧
      s2.pss.length = 8 ∧ 0 ≤ s2.currentPosition ∧ s2.currentPosition ≤ 8 ∧
      0 ≤ s2.bytesRemaining ∧ s2.currentPosition + s2.bytesRemaining = 8) ∧
    ∃ s1 s2, writeChunks (usbFunctionSetup s setReport).st cs = some (s1, expectedFlags 0 cs) ∧
      writeChunks (usbFunctionSetup s setReport).st [cs.flatten.take 8] = some (s2, [1]) ∧
      s1.pss = cs.flatten.take 8 ∧ s1.currentPosition = 8 ∧ s1.bytesRemaining = 0 ∧
      Committed s1 ∧
      s1.pss = s2.pss ∧ s1.us = s2.us ∧ s1.is = s2.is ∧ s1.outstate = s2.outstate := by
  constructor
  · intro cs1
    obtain ⟨s2, h1, h2, h3, h4, _, _, _⟩ := writeChunks_after_setReport s cs1 hlen
    refine ⟨s2, _, h1, ?_, ?_, ?_, ?_, ?_⟩
    · rw [h2]
      simp only [List.length_append, List.length_take, List.length_drop, hlen]
      omega
    · rw [h3]; omega
    · rw [h3]; omega
    · rw [h4]; omega
    · rw [h3, h4]; omega
  · obtain ⟨s1, h1, h2, h3, h4, _, h6, _⟩ := writeChunks_after_setReport s cs hlen
    obtain ⟨s2, k1, k2, _, _, _, k6, _⟩ :=
      writeChunks_after_setReport s [cs.flatten.take 8] hlen
    have hl : (cs.flatten.take 8).length = 8 := by
      rw [List.length_take]; omega
    have hf : [cs.flatten.take 8].flatten = cs.flatten.take 8 := by simp
    have hp1 : s1.pss = cs.flatten.take 8 := by
      rw [h2, Nat.min_eq_right hcs, List.drop_of_length_le (by omega)]
      simp
    have hp2 : s2.pss = cs.flatten.take 8 := by
      rw [k2, hf, hl, List.drop_of_length_le (by omega)]
      simp
    have he : expectedFlags 0 [cs.flatten.take 8] = [1] := by
      simp [expectedFlags, hl]
    rw [he] at k1
    have c1 := h6 hcs
    have c2 := k6 (by rw [hf, hl])
    refine ⟨s1, s2, h1, k1, hp1, ?_, ?_, c1, by rw [hp1, hp2], ?_, ?_, ?_⟩
    · rw [h3, Nat.min_eq_right hcs]; rfl
    · rw [h4, Nat.sub_eq_zero_of_le hcs]; rfl
    · rw [c1.1, c2.1, hp1, hp2]
    · rw [c1.2.1, c2.2.1, hp1, hp2]
    · rw [c1.2.2, c2.2.2, hp1, hp2]

/-- Witness of C3: one chunk of 10 bytes from the initial state. -/
theorem overrun_is_truncated_witness :
    initState.pss.length = 8 ∧ 8 ≤ [[1, 2, 3, 4, 5, 6, 7, 8, 9, 10]].flatten.length ∧
    ∃ s1 s2, writeChunks (usbFunctionSetup initState setReport).st [[1, 2, 3, 4, 5, 6, 7, 8, 9, 10]]
        = some (s1, expectedFlags 0 [[1, 2, 3, 4, 5, 6, 7, 8, 9, 10]]) ∧
      writeChunks (usbFunctionSetup initState setReport).st
        [[[1, 2, 3, 4, 5, 6, 7, 8, 9, 10]].flatten.take 8] = some (s2, [1]) ∧
      s1.pss = [[1, 2, 3, 4, 5, 6, 7, 8, 9, 10]].flatten.take 8 ∧ s1.pss = s2.pss :=
  ⟨rfl, by decide,
    (overrun_is_truncated initState [[1, 2, 3, 4, 5, 6, 7, 8, 9, 10]] rfl (by decide)).2.imp
      fun _ h => h.imp fun _ k => ⟨k.1, k.2.1, k.2.2.1, k.2.2.2.2.2.2.1⟩⟩

/-- C4, the claim as stated fails: from the initial state (measurements
`um = im = 0`) the record with voltage field `0x1234` and current field `0x5678`
is applied, and the Read that follows returns the fields 0 and 0. -/
theorem read_after_write_counterexample :
    (writeChunks (usbFunctionSetup initState setReport).st [[1, 0x34, 0x12, 0x78, 0x56, 9, 10, 11]]).map
        (fun r => (usbFunctionSetup r.1 getReport).msg) = some [1, 0, 0, 0, 0, 9, 10, 11] ∧
      voltage_value [1, 0, 0, 0, 0, 9, 10, 11] ≠ voltage_value [1, 0x34, 0x12, 0x78, 0x56, 9, 10, 11] ∧
      amperage_value [1, 0, 0, 0, 0, 9, 10, 11] ≠
        amperage_value [1, 0x34, 0x12, 0x78, 0x56, 9, 10, 11] := by
  decide

/-- C4 as amended: after a completed host write of the record `b0..b7` the
setpoints are the applied ones, and a Read issued right after returns 8 bytes
whose voltage and current fields are the measurements `um` and `im`, whose
output flag is the applied one and whose three reserved bytes are those of the
written record. -/
theorem read_after_write (s : State) (b0 b1 b2 b3 b4 b5 b6 b7 : Nat)
    (hlen : s.pss.length = 8) (hb0 : b0 < 256) (hum : s.um < 65536) (him : s.im < 65536) :
    ∃ s1, writeChunks (usbFunctionSetup s setReport).st [[b0, b1, b2, b3, b4, b5, b6, b7]]
        = some (s1, [1]) ∧
      s1.us = b1 + 256 * b2 ∧ s1.is = b3 + 256 * b4 ∧
      (usbFunctionSetup s1 getReport).len = 8 ∧
      (usbFunctionSetup s1 getReport).msg.length = 8 ∧
      voltage_value (usbFunctionSetup s1 getReport).msg = s.um ∧
      amperage_value (usbFunctionSetup s1 getReport).msg = s.im ∧
      output_state (usbFunctionSetup s1 getReport).msg = b0 ∧
      reserved (usbFunctionSetup s1 getReport).msg = [b5, b6, b7] := by
  obtain ⟨s1, h1, h2, _, _, _, h6, h7⟩ :=
    writeChunks_after_setReport s [[b0, b1, b2, b3, b4, b5, b6, b7]] hlen
  have hp : s1.pss = [b0, b1, b2, b3, b4, b5, b6, b7] := by
    rw [h2]
    have hf : [[b0, b1, b2, b3, b4, b5, b6, b7]].flatten = [b0, b1, b2, b3, b4, b5, b6, b7] := by
      simp
    rw [hf]
    have hl : [b0, b1, b2, b3, b4, b5, b6, b7].length = 8 := rfl
    rw [hl, List.drop_of_length_le (by omega)]
    rfl
  obtain ⟨c1, c2, c3⟩ := h6 (by simp)
  rw [hp] at c1 c2 c3
  have hm := getReport_msg s1 (by rw [hp]; rfl)
  rw [hp, c3, h7.2.1, h7.2.2.1] at hm
  have hout : output_state [b0, b1, b2, b3, b4, b5, b6, b7] = b0 := rfl
  rw [hout] at hm
  refine ⟨s1, h1, c1, c2, by rw [usbFunctionSetup_getReport], ?_, ?_, ?_, ?_, ?_⟩
  · rw [hm]; rfl
  · rw [hm]
    show s.um % 256 + 256 * (s.um / 256 % 256) = s.um
    omega
  · rw [hm]
    show s.im % 256 + 256 * (s.im / 256 % 256) = s.im
    omega
  · rw [hm]
    show b0 % 256 = b0
    omega
  · rw [hm]; rfl

/-- Witness of C4 as amended, at the initial state. -/
theorem read_after_write_witness :
    initState.pss.length = 8 ∧ initState.um < 65536 ∧ initState.im < 65536 ∧
    ∃ s1, writeChunks (usbFunctionSetup initState setReport).st
        [[1, 0x34, 0x12, 0x78, 0x56, 9, 10, 11]] = some (s1, [1]) ∧
      voltage_value (usbFunctionSetup s1 getReport).msg = initState.um :=
  ⟨rfl, by decide, by decide,
    (read_after_write initState 1 0x34 0x12 0x78 0x56 9 10 11 rfl (by decide) (by decide)
      (by decide)).imp fun _ h => ⟨h.1, h.2.2.2.2.2.1⟩⟩

/-- C5, the claim as stated fails: from the initial state a write session is
left after 7 bytes; the Read that follows returns the bytes `0xAA`, `0xBB` of
the partial write at offsets 5 and 6, where it returns 0 and 0 when no chunk
was delivered. -/
theorem incomplete_write_counterexample :
    (writeChunks (usbFunctionSetup initState setReport).st [[1, 2, 3, 4, 5, 0xAA, 0xBB]]).map
        (fun r => (usbFunctionSetup r.1 getReport).msg) = some [1, 0, 0, 0, 0, 0xAA, 0xBB, 0] ∧
      (usbFunctionSetup (usbFunctionSetup initState setReport).st getReport).msg =
        [1, 0, 0, 0, 0, 0, 0, 0] ∧
      (writeChunks (usbFunctionSetup initState setReport).st [[1, 2, 3, 4, 5, 0xAA, 0xBB]]).map
        (fun r => (usbFunctionSetup r.1 getReport).msg) ≠
          some (usbFunctionSetup (usbFunctionSetup initState setReport).st getReport).msg := by
  decide

/-- C5 as amended: for every state and every write session left incomplete
(chunks totalling `n < 8` bytes), the reply to a following `GET_REPORT` is the
reply it has when no chunk was delivered, except that the offsets 5 up to
`n - 1` hold the bytes delivered at those offsets: bytes 0 to 4 and byte 7 are
always the same, the whole reply is the same whenever `n ≤ 5`, and in general it
is the same exactly when the bytes delivered at offsets 5 up to `n - 1` are
those already held there. -/
theorem incomplete_write_read (s : State) (cs : List (List Nat)) (hlen : s.pss.length = 8)
    (hcs : cs.flatten.length < 8) :
    ∃ s1 fl, writeChunks (usbFunctionSetup s setReport).st cs = some (s1, fl) ∧
      (usbFunctionSetup s1 getReport).msg =
        (usbFunctionSetup (usbFunctionSetup s setReport).st getReport).msg.take 5 ++
          (cs.flatten.drop 5 ++
            (usbFunctionSetup (usbFunctionSetup s setReport).st getReport).msg.drop
              (max 5 cs.flatten.length)) ∧
      (usbFunctionSetup s1 getReport).msg.take 5 =
        (usbFunctionSetup (usbFunctionSetup s setReport).st getReport).msg.take 5 ∧
      (usbFunctionSetup s1 getReport).msg.drop 7 =
        (usbFunctionSetup (usbFunctionSetup s setReport).st getReport).msg.drop 7 ∧
      (cs.flatten.length ≤ 5 →
        (usbFunctionSetup s1 getReport).msg =
          (usbFunctionSetup (usbFunctionSetup s setReport).st getReport).msg) ∧
      ((usbFunctionSetup s1 getReport).msg =
          (usbFunctionSetup (usbFunctionSetup s setReport).st getReport).msg ↔
        cs.flatten.drop 5 =
          ((usbFunctionSetup (usbFunctionSetup s setReport).st getReport).msg.drop 5).take
            (cs.flatten.length - 5)) := by
  obtain ⟨s1, h1, h2, _, _, h5, _, h7⟩ := writeChunks_after_setReport s cs hlen
  obtain ⟨_, _, c3⟩ := h5 hcs
  have hp : s1.pss = cs.flatten ++ s.pss.drop cs.flatten.length := by
    rw [h2, List.take_of_length_le (by omega), Nat.min_eq_left (by omega)]
  have hl1 : s1.pss.length = 8 := by
    rw [hp, List.length_append, List.length_drop, hlen]; omega
  have hm1 := getReport_msg s1 hl1
  rw [c3, h7.2.1, h7.2.2.1] at hm1
  have hm0 := getReport_msg (usbFunctionSetup s setReport).st
    (by rw [usbFunctionSetup_setReport]; exact hlen)
  rw [usbFunctionSetup_setReport] at hm0
  simp only at hm0
  rw [usbFunctionSetup_setReport] at h1 ⊢
  obtain ⟨hdr, hhdr, hl5⟩ : ∃ hdr : List Nat,
      hdr = [s.outstate % 256, s.um % 256, s.um / 256 % 256, s.im % 256, s.im / 256 % 256] ∧
        hdr.length = 5 := ⟨_, rfl, rfl⟩
  rw [← hhdr] at hm0 hm1
  have hJ : (cs.flatten.drop 5).length = cs.flatten.length - 5 := List.length_drop _ _
  have hd1 : (cs.flatten ++ s.pss.drop cs.flatten.length).drop 5 =
      cs.flatten.drop 5 ++ s.pss.drop (max 5 cs.flatten.length) := by
    rw [List.drop_append_eq_append_drop, List.drop_drop]
    congr 2
    omega
  have hd0 : ∀ k, 5 ≤ k → (hdr ++ s.pss.drop 5).drop k = s.pss.drop k := by
    intro k hk
    rw [List.drop_append_eq_append_drop, List.drop_of_length_le (by omega), List.nil_append,
      List.drop_drop, hl5]
    congr 1
    omega
  have ht : ∀ X : List Nat, (hdr ++ X).take 5 = hdr := fun X => List.take_left' hl5
  rw [hp, hd1] at hm1
  have hsplit : s.pss.drop 5 = (s.pss.drop 5).take (cs.flatten.length - 5) ++
      s.pss.drop (max 5 cs.flatten.length) := by
    have hx := (List.take_append_drop (cs.flatten.length - 5) (s.pss.drop 5)).symm
    rw [List.drop_drop] at hx
    have hy : 5 + (cs.flatten.length - 5) = max 5 cs.flatten.length := by omega
    rw [hy] at hx
    exact hx
  refine ⟨s1, _, h1, ?_, ?_, ?_, ?_, ?_⟩
  · rw [hm1, hm0, ht, hd0 _ (by omega)]
  · rw [hm1, hm0, ht, ht]
  · rw [hm1, hm0, hd0 7 (by omega), List.drop_append_eq_append_drop, List.drop_of_length_le
      (by omega), List.nil_append, hl5, List.drop_append_eq_append_drop,
      List.drop_of_length_le (by omega), List.nil_append, List.drop_drop, hJ]
    congr 1
    omega
  · intro h
    rw [hm1, hm0, List.drop_of_length_le h, List.nil_append]
    congr 2
    omega
  · rw [hm1, hm0, hd0 5 (by omega)]
    constructor
    · intro he
      have he1 := List.append_cancel_left he
      rw [hsplit] at he1
      exact List.append_cancel_right he1
    · intro he
      rw [hsplit, ← he]

/-- Witness of C5 as amended: a session left after 3 bytes. -/
theorem incomplete_write_read_witness :
    initState.pss.length = 8 ∧ [[7, 7, 7]].flatten.length < 8 ∧
    ∃ s1 fl, writeChunks (usbFunctionSetup initState setReport).st [[7, 7, 7]] = some (s1, fl) ∧
      (usbFunctionSetup s1 getReport).msg.take 5 =
        (usbFunctionSetup (usbFunctionSetup initState setReport).st getReport).msg.take 5 :=
  ⟨rfl, by decide,
    (incomplete_write_read initState [[7, 7, 7]] rfl (by decide)).imp
      fun _ h => h.imp fun _ k => ⟨k.1, k.2.2.1⟩⟩

/-! ## Modes -/

theorem eventEncoderClockwise_keeps (s : State) :
    SameMode s (eventEncoderClockwise s) ∧ SameTransfer s (eventEncoderClockwise s) := by
  simp only [eventEncoderClockwise]
  split_ifs <;> exact ⟨⟨rfl, rfl⟩, ⟨rfl, rfl, rfl⟩⟩

theorem eventEncoderCounterclockwise_keeps (s : State) :
    SameMode s (eventEncoderCounterclockwise s) ∧
      SameTransfer s (eventEncoderCounterclockwise s) := by
  simp only [eventEncoderCounterclockwise]
  split_ifs <;> exact ⟨⟨rfl, rfl⟩, ⟨rfl, rfl, rfl⟩⟩

theorem eventOutputControlClicked_keeps (s : State) :
    SameMode s (eventOutputControlClicked s) ∧ SameTransfer s (eventOutputControlClicked s) := by
  simp only [eventOutputControlClicked]
  split_ifs <;> exact ⟨⟨rfl, rfl⟩, ⟨rfl, rfl, rfl⟩⟩

theorem eventEncoderClicked_keeps (s : State) :
    SameMode s (eventEncoderClicked s) ∧ SameTransfer s (eventEncoderClicked s) := by
  simp only [eventEncoderClicked]
  split_ifs <;> exact ⟨⟨rfl, rfl⟩, ⟨rfl, rfl, rfl⟩⟩

theorem encoderStep_keeps (s : State) (h : EncHist) (temp : Nat) :
    SameMode s (encoderStep s h temp).1 ∧ SameTransfer s (encoderStep s h temp).1 := by
  cases h1 : matchClockwise (encPush h temp)
  · cases h2 : matchCounterclockwise (encPush h temp)
    · rw [encoderStep_idle s h temp h1 h2]
      exact ⟨⟨rfl, rfl⟩, ⟨rfl, rfl, rfl⟩⟩
    · rw [encoderStep_ccw s h temp h1 h2]
      exact eventEncoderCounterclockwise_keeps s
  · rw [encoderStep_cw s h temp h1]
    exact eventEncoderClockwise_keeps s

theorem switchStep_keeps (s : State) (temp : Nat) :
    SameMode s (switchStep s temp).1 ∧ SameTransfer s (switchStep s temp).1 := by
  simp only [switchStep]
  by_cases h1 : temp = 1
  · have h2 : ¬ temp = 2 := by omega
    simp only [h1, if_true]
    rw [if_neg (by omega)]
    exact eventOutputControlClicked_keeps s
  · by_cases h2 : temp = 2
    · simp only [h2, if_true]
      rw [if_neg (by omega)]
      exact eventEncoderClicked_keeps s
    · simp only [h1, h2, if_false]
      exact ⟨⟨rfl, rfl⟩, ⟨rfl, rfl, rfl⟩⟩

theorem encoderStep_rotations (s : State) (h : EncHist) (temp : Nat) (hr : s.rotations ≤ 255) :
    (encoderStep s h temp).1.rotations ≤ 255 := by
  have hcw : (eventEncoderClockwise s).rotations = s.rotations := by
    simp only [eventEncoderClockwise]; split_ifs <;> rfl
  have hccw : (eventEncoderCounterclockwise s).rotations = s.rotations := by
    simp only [eventEncoderCounterclockwise]; split_ifs <;> rfl
  cases h1 : matchClockwise (encPush h temp)
  · cases h2 : matchCounterclockwise (encPush h temp)
    · rw [encoderStep_idle s h temp h1 h2]
      exact hr
    · rw [encoderStep_ccw s h temp h1 h2]
      simp only [bumpRotations, hccw]
      split_ifs <;> omega
  · rw [encoderStep_cw s h temp h1]
    simp only [bumpRotations, hcw]
    split_ifs <;> omega

theorem timerBlock_state (s : State) (adc7 adc6 usb : Nat) :
    (timerBlock s adc7 adc6 usb).state = (if usb ≠ 0 then STATE_CONNECTED else s.state) ∧
      SameTransfer s (timerBlock s adc7 adc6 usb) := by
  simp only [timerBlock, eventTimerTick]
  split_ifs <;> exact ⟨rfl, ⟨rfl, rfl, rfl⟩⟩

theorem processEventsStep_state (s : State) (h : EncHist) (inp : LoopInput) :
    (processEventsStep s h inp).1.state =
        (if inp.tov1 = true ∧ getUsbState inp.pinbUsb ≠ 0 then STATE_CONNECTED else s.state) ∧
      SameTransfer s (processEventsStep s h inp).1 := by
  have he := encoderStep_keeps s h (getEncoderRotationState inp.pinc)
  have hs := switchStep_keeps (encoderStep s h (getEncoderRotationState inp.pinc)).1
    (getSwitchState inp.pind inp.pinbSwitch)
  have hst : (switchStep (encoderStep s h (getEncoderRotationState inp.pinc)).1
      (getSwitchState inp.pind inp.pinbSwitch)).1.state = s.state := hs.1.1.trans he.1.1
  have htr : SameTransfer s (switchStep (encoderStep s h (getEncoderRotationState inp.pinc)).1
      (getSwitchState inp.pind inp.pinbSwitch)).1 :=
    ⟨hs.2.1.trans he.2.1, hs.2.2.1.trans he.2.2.1, hs.2.2.2.trans he.2.2.2⟩
  simp only [processEventsStep]
  cases ht : inp.tov1
  · simp only [Bool.false_eq_true, if_false, false_and]
    exact ⟨hst, htr⟩
  · simp only [if_true, true_and]
    have hb := timerBlock_state (switchStep (encoderStep s h (getEncoderRotationState inp.pinc)).1
      (getSwitchState inp.pind inp.pinbSwitch)).1 inp.adc7 inp.adc6 (getUsbState inp.pinbUsb)
    refine ⟨?_, hb.2.1.trans htr.1, hb.2.2.1.trans htr.2.1, hb.2.2.2.trans htr.2.2⟩
    rw [hb.1, hst]

theorem connectedStep_state (s : State) (inp : LoopInput) (calls : List UsbCall)
    (hok : SessionOk s) :
    ∃ t, connectedStep s inp calls = some t ∧ SessionOk t ∧
      t.state = (if getUsbState inp.pinbUsb = 0 then STATE_DISCONNECTED else s.state) := by
  obtain ⟨s2, h2, hok2⟩ := usbPoll_sessionOk calls { s with um := inp.adc7 } hok
  have hl := usbPoll_sameLocal calls _ _ h2
  simp only [connectedStep, h2]
  by_cases hu : getUsbState inp.pinbUsb = 0
  · simp only [hu, if_true]
    exact ⟨_, rfl, hok2, rfl⟩
  · simp only [hu, if_false]
    exact ⟨_, rfl, hok2, hl.1⟩

theorem handlers_counters (s : State) :
    SameCounters s (eventEncoderClockwise s) ∧ SameCounters s (eventEncoderCounterclockwise s) ∧
      SameCounters s (eventOutputControlClicked s) ∧ SameCounters s (eventEncoderClicked s) := by
  refine ⟨?_, ?_, ?_, ?_⟩
  · simp only [eventEncoderClockwise]
    split_ifs <;> exact ⟨rfl, rfl⟩
  · simp only [eventEncoderCounterclockwise]
    split_ifs <;> exact ⟨rfl, rfl⟩
  · simp only [eventOutputControlClicked]
    split_ifs <;> exact ⟨rfl, rfl⟩
  · simp only [eventEncoderClicked]
    split_ifs <;> exact ⟨rfl, rfl⟩

theorem bumpRotations_count (s : State) (hr : s.rotations ≤ 255) :
    (bumpRotations s).rotations = min (s.rotations + 1) 255 ∧
      (bumpRotations s).prevrotations = s.prevrotations := by
  refine ⟨?_, rfl⟩
  simp only [bumpRotations]
  rw [min_def]
  split_ifs <;> omega

theorem encoderStep_count (s : State) (h : EncHist) (temp : Nat) (hr : s.rotations ≤ 255) :
    (encoderStep s h temp).1.rotations =
        min (s.rotations + (encoderStep s h temp).2.2.length) 255 ∧
      (encoderStep s h temp).1.prevrotations = s.prevrotations ∧
      ((encoderStep s h temp).2.2 = [] ∨ (encoderStep s h temp).2.2 = [Event.Clockwise] ∨
        (encoderStep s h temp).2.2 = [Event.CounterClockwise]) := by
  obtain ⟨⟨a1, a2⟩, ⟨b1, b2⟩, _, _⟩ := handlers_counters s
  cases h1 : matchClockwise (encPush h temp)
  · cases h2 : matchCounterclockwise (encPush h temp)
    · rw [encoderStep_idle s h temp h1 h2]
      exact ⟨by simpa using hr, rfl, Or.inl rfl⟩
    · rw [encoderStep_ccw s h temp h1 h2]
      obtain ⟨c1, c2⟩ := bumpRotations_count (eventEncoderCounterclockwise s) (by rw [b1]; exact hr)
      exact ⟨by rw [c1, b1]; rfl, by rw [c2, b2], Or.inr (Or.inr rfl)⟩
  · rw [encoderStep_cw s h temp h1]
    obtain ⟨c1, c2⟩ := bumpRotations_count (eventEncoderClockwise s) (by rw [a1]; exact hr)
    exact ⟨by rw [c1, a1]; rfl, by rw [c2, a2], Or.inr (Or.inl rfl)⟩

theorem switchStep_counters (s : State) (temp : Nat) : SameCounters s (switchStep s temp).1 := by
  obtain ⟨_, _, a3, a4⟩ := handlers_counters s
  simp only [switchStep]
  by_cases h1 : temp = 1
  · simp only [h1, if_true]
    rw [if_neg (by omega)]
    exact a3
  · by_cases h2 : temp = 2
    · simp only [h2, if_true]
      rw [if_neg (by omega)]
      exact a4
    · simp only [h1, h2, if_false]
      exact ⟨rfl, rfl⟩

theorem decodeSamples_count (xs : List Nat) : ∀ (s : State) (h : EncHist), s.rotations ≤ 255 →
    (decodeSamples s h xs).1.rotations =
        min (s.rotations + (decodeSamples s h xs).2.2.flatten.length) 255 ∧
      (decodeSamples s h xs).1.prevrotations = s.prevrotations := by
  induction xs with
  | nil =>
    intro s h hr
    constructor
    · simp only [decodeSamples, List.flatten_nil, List.length_nil, Nat.add_zero]
      omega
    · rfl
  | cons x xs ih =>
    intro s h hr
    obtain ⟨e1, e2, _⟩ := encoderStep_count s h x hr
    obtain ⟨k1, k2⟩ := ih (encoderStep s h x).1 (encoderStep s h x).2.1
      (encoderStep_rotations s h x hr)
    simp only [decodeSamples, List.flatten_cons, List.length_append]
    refine ⟨?_, by rw [k2, e2]⟩
    rw [k1, e1]
    simp only [min_def]
    split_ifs <;> omega

theorem timerBlock_counters (s : State) (adc7 adc6 usb : Nat) :
    (timerBlock s adc7 adc6 usb).rotatestate =
        (if s.prevrotations + s.rotations > 5 then ROTATESTATE_FAST else ROTATESTATE_SLOW) ∧
      (timerBlock s adc7 adc6 usb).rotations = 0 ∧
      (timerBlock s adc7 adc6 usb).prevrotations = s.rotations := by
  simp only [timerBlock, eventTimerTick]
  split_ifs <;> exact ⟨rfl, rfl, rfl⟩

/-- C9: the timer block of `processEvents` sets `rotatestate` to Fast exactly
when `prevrotations + rotations` (a sum of naturals, no 8-bit wrap) is greater
than 5 and to Slow otherwise, then `rotations` is 0 and `prevrotations` holds
the count of the window just ended; the counter saturates at 255; an iteration
with the overflow flag set runs this block on the state left by the decoder
and switch parts, and an iteration without it, every event handler and both
transfer handlers leave `rotatestate` as it is.  The counters count the
rotation events: the decoder part adds the number of events it emits (none or
one, clockwise or counterclockwise) to `rotations`, saturating at 255, over one
sample and over any stream, and leaves `prevrotations`; the switch part, the
event handlers and the transfer handlers leave both counters; so at a tick
`prevrotations` becomes the events counted since the last tick and the mode is
Fast exactly when the two windows hold more than 5. -/
theorem adjustment_mode_on_tick (s : State) (h : EncHist) (inp : LoopInput) (temp : Nat)
    (d : List Nat) (len adc7 adc6 usb : Nat) (hr : s.rotations ≤ 255) :
    ((timerBlock s adc7 adc6 usb).rotatestate = ROTATESTATE_FAST ↔
      s.prevrotations + s.rotations > 5) ∧
    ((timerBlock s adc7 adc6 usb).rotatestate = ROTATESTATE_SLOW ↔
      ¬ s.prevrotations + s.rotations > 5) ∧
    (timerBlock s adc7 adc6 usb).rotations = 0 ∧
    (timerBlock s adc7 adc6 usb).prevrotations = s.rotations ∧
    (bumpRotations s).rotations = min (s.rotations + 1) 255 ∧
    (encoderStep s h temp).1.rotations ≤ 255 ∧
    (inp.tov1 = true → (processEventsStep s h inp).1 =
      timerBlock (switchStep (encoderStep s h (getEncoderRotationState inp.pinc)).1
        (getSwitchState inp.pind inp.pinbSwitch)).1 inp.adc7 inp.adc6
        (getUsbState inp.pinbUsb)) ∧
    (inp.tov1 = false → (processEventsStep s h inp).1.rotatestate = s.rotatestate) ∧
    (eventEncoderClockwise s).rotatestate = s.rotatestate ∧
    (eventEncoderCounterclockwise s).rotatestate = s.rotatestate ∧
    (eventOutputControlClicked s).rotatestate = s.rotatestate ∧
    (eventEncoderClicked s).rotatestate = s.rotatestate ∧
    (eventTimerTick s adc7 adc6).rotatestate = s.rotatestate ∧
    (encoderStep s h temp).1.rotatestate = s.rotatestate ∧
    (switchStep s temp).1.rotatestate = s.rotatestate ∧
    (usbFunctionSetup s d).st.rotatestate = s.rotatestate ∧
    (∀ r, usbFunctionWrite s d len = some r → r.1.rotatestate = s.rotatestate) ∧
    (encoderStep s h temp).1.rotations =
      min (s.rotations + (encoderStep s h temp).2.2.length) 255 ∧
    ((encoderStep s h temp).2.2 = [] ∨ (encoderStep s h temp).2.2 = [Event.Clockwise] ∨
      (encoderStep s h temp).2.2 = [Event.CounterClockwise]) ∧
    (encoderStep s h temp).1.prevrotations = s.prevrotations ∧
    (∀ xs : List Nat,
      (decodeSamples s h xs).1.rotations =
        min (s.rotations + (decodeSamples s h xs).2.2.flatten.length) 255 ∧
      (decodeSamples s h xs).1.prevrotations = s.prevrotations) ∧
    SameCounters s (switchStep s temp).1 ∧
    SameCounters s (eventEncoderClockwise s) ∧
    SameCounters s (eventEncoderCounterclockwise s) ∧
    SameCounters s (eventOutputControlClicked s) ∧
    SameCounters s (eventEncoderClicked s) ∧
    SameCounters s (eventTimerTick s adc7 adc6) ∧
    SameCounters s (usbFunctionSetup s d).st ∧
    (∀ r, usbFunctionWrite s d len = some r → SameCounters s r.1) ∧
    (inp.tov1 = true →
      (processEventsStep s h inp).1.prevrotations =
        min (s.rotations + (encoderStep s h (getEncoderRotationState inp.pinc)).2.2.length) 255 ∧
      (processEventsStep s h inp).1.rotations = 0 ∧
      ((processEventsStep s h inp).1.rotatestate = ROTATESTATE_FAST ↔
        s.prevrotations +
          min (s.rotations + (encoderStep s h (getEncoderRotationState inp.pinc)).2.2.length) 255
            > 5)) ∧
    (inp.tov1 = false →
      (processEventsStep s h inp).1.rotations =
        min (s.rotations + (encoderStep s h (getEncoderRotationState inp.pinc)).2.2.length) 255 ∧
      (processEventsStep s h inp).1.prevrotations = s.prevrotations) := by
  have htb := timerBlock_counters s adc7 adc6 usb
  have hcnt := encoderStep_count s h temp hr
  have hh := handlers_counters s
  have hec := encoderStep_count s h (getEncoderRotationState inp.pinc) hr
  have hsc := switchStep_counters (encoderStep s h (getEncoderRotationState inp.pinc)).1
    (getSwitchState inp.pind inp.pinbSwitch)
  refine ⟨?_, ?_, htb.2.1, htb.2.2, ?_, encoderStep_rotations s h temp hr, ?_, ?_,
    (eventEncoderClockwise_keeps s).1.2, (eventEncoderCounterclockwise_keeps s).1.2,
    (eventOutputControlClicked_keeps s).1.2, (eventEncoderClicked_keeps s).1.2, rfl,
    (encoderStep_keeps s h temp).1.2, (switchStep_keeps s temp).1.2,
    (usbFunctionSetup_sameLocal s d).1.2.2.2.2.1,
    fun r hw => (usbFunctionWrite_sameLocal s d len r hw).2.2.2.2.1,
    hcnt.1, hcnt.2.2, hcnt.2.1, fun xs => decodeSamples_count xs s h hr,
    switchStep_counters s temp, hh.1, hh.2.1, hh.2.2.1, hh.2.2.2, ⟨rfl, rfl⟩,
    ⟨(usbFunctionSetup_sameLocal s d).1.2.2.2.2.2.1, (usbFunctionSetup_sameLocal s d).1.2.2.2.2.2.2⟩,
    fun r hw => ⟨(usbFunctionWrite_sameLocal s d len r hw).2.2.2.2.2.1,
      (usbFunctionWrite_sameLocal s d len r hw).2.2.2.2.2.2⟩, ?_, ?_⟩
  · rw [htb.1]
    split_ifs with hc
    · exact ⟨fun _ => hc, fun _ => rfl⟩
    · exact ⟨fun h0 => absurd h0 (by decide), fun h0 => absurd h0 hc⟩
  · rw [htb.1]
    split_ifs with hc
    · exact ⟨fun h0 => absurd h0 (by decide), fun h0 => absurd hc h0⟩
    · exact ⟨fun _ => hc, fun _ => rfl⟩
  · exact (bumpRotations_count s hr).1
  · intro ht
    simp only [processEventsStep, ht, if_true]
  · intro ht
    have he := encoderStep_keeps s h (getEncoderRotationState inp.pinc)
    have hs := switchStep_keeps (encoderStep s h (getEncoderRotationState inp.pinc)).1
      (getSwitchState inp.pind inp.pinbSwitch)
    simp only [processEventsStep, ht, Bool.false_eq_true, if_false]
    exact hs.1.2.trans he.1.2
  · intro ht
    have hb := timerBlock_counters (switchStep (encoderStep s h
      (getEncoderRotationState inp.pinc)).1 (getSwitchState inp.pind inp.pinbSwitch)).1
      inp.adc7 inp.adc6 (getUsbState inp.pinbUsb)
    simp only [processEventsStep, ht, if_true]
    rw [hsc.1, hsc.2, hec.1, hec.2.1] at hb
    refine ⟨hb.2.2, hb.2.1, ?_⟩
    rw [hb.1]
    split_ifs with hc
    · exact ⟨fun _ => hc, fun _ => rfl⟩
    · exact ⟨fun h0 => absurd h0 (by decide), fun h0 => absurd h0 hc⟩
  · intro ht
    simp only [processEventsStep, ht, Bool.false_eq_true, if_false]
    exact ⟨hsc.1.trans hec.1, hsc.2.trans hec.2.1⟩

/-- Witness of C9: a tick after 3 and 3 counted rotations selects Fast. -/
theorem adjustment_mode_on_tick_witness :
    ({ initState with rotations := 3, prevrotations := 3 } : State).rotations ≤ 255 ∧
    (timerBlock { initState with rotations := 3, prevrotations := 3 } 0 0 0).rotatestate
      = ROTATESTATE_FAST :=
  ⟨by decide,
    (adjustment_mode_on_tick { initState with rotations := 3, prevrotations := 3 } encReset
      ⟨0, 0, 0, true, 0, 0, 0⟩ 0 [] 0 0 0 0 (by decide)).1.2 (by decide)⟩

/-- C10: with the connection mode stepped by `modeStep`, from Disconnected the
mode becomes Connected exactly on an iteration whose overflow flag is set and
whose `getUsbState` reads nonzero and stays Disconnected otherwise; from
Connected it becomes Disconnected exactly when `getUsbState` reads zero and
stays Connected otherwise; the initial mode is Disconnected, and for link
presence false, true, false over three evaluations (the first two at a tick) the
modes are Disconnected, Connected, Disconnected. -/
theorem connection_mode_steps (s : State) (h : EncHist) (inp : LoopInput)
    (calls : List UsbCall) (hok : SessionOk s) :
    initState.state = STATE_DISCONNECTED ∧
    (s.state = STATE_DISCONNECTED →
      ∃ t, modeStep s h inp calls = some t ∧
        (t.state = STATE_CONNECTED ↔ (inp.tov1 = true ∧ getUsbState inp.pinbUsb ≠ 0)) ∧
        (t.state = STATE_DISCONNECTED ↔ ¬ (inp.tov1 = true ∧ getUsbState inp.pinbUsb ≠ 0))) ∧
    (s.state = STATE_CONNECTED →
      ∃ t, modeStep s h inp calls = some t ∧
        (t.state = STATE_DISCONNECTED ↔ getUsbState inp.pinbUsb = 0) ∧
        (t.state = STATE_CONNECTED ↔ getUsbState inp.pinbUsb ≠ 0)) ∧
    (s.state = STATE_DISCONNECTED →
      ∀ (i1 i2 i3 : LoopInput) (h1 h2 h3 : EncHist) (c1 c2 c3 : List UsbCall),
        i1.tov1 = true → getUsbState i1.pinbUsb = 0 →
        i2.tov1 = true → getUsbState i2.pinbUsb ≠ 0 →
        getUsbState i3.pinbUsb = 0 →
        ∃ t1 t2 t3, modeStep s h1 i1 c1 = some t1 ∧ modeStep t1 h2 i2 c2 = some t2 ∧
          modeStep t2 h3 i3 c3 = some t3 ∧ t1.state = STATE_DISCONNECTED ∧
          t2.state = STATE_CONNECTED ∧ t3.state = STATE_DISCONNECTED) := by
  have hne : STATE_CONNECTED ≠ STATE_DISCONNECTED := by decide
  have hok_pe : ∀ (u : State) (g : EncHist) (i : LoopInput), SessionOk u →
      SessionOk (processEventsStep u g i).1 := by
    intro u g i hu
    obtain ⟨e1, e2, e3⟩ := (processEventsStep_state u g i).2
    obtain ⟨a1, a2, a3, a4⟩ := hu
    exact ⟨by rw [e1]; exact a1, by rw [e3]; exact a2, by rw [e2]; exact a3,
      by rw [e2, e3]; exact a4⟩
  refine ⟨rfl, ?_, ?_, ?_⟩
  · intro hs
    refine ⟨(processEventsStep s h inp).1, by simp only [modeStep, hs, if_true], ?_, ?_⟩
    · rw [(processEventsStep_state s h inp).1, hs]
      split_ifs with hc
      · exact ⟨fun _ => hc, fun _ => rfl⟩
      · exact ⟨fun h0 => absurd h0.symm hne, fun h0 => absurd h0 hc⟩
    · rw [(processEventsStep_state s h inp).1, hs]
      split_ifs with hc
      · exact ⟨fun h0 => absurd h0 hne, fun h0 => absurd hc h0⟩
      · exact ⟨fun _ => hc, fun _ => rfl⟩
  · intro hs
    obtain ⟨t, ht, _, hst⟩ := connectedStep_state s inp calls hok
    refine ⟨t, ?_, ?_, ?_⟩
    · unfold modeStep
      rw [hs, if_neg hne, if_pos rfl]
      exact ht
    · rw [hst, hs]
      split_ifs with hc
      · exact ⟨fun _ => hc, fun _ => rfl⟩
      · exact ⟨fun h0 => absurd h0 hne, fun h0 => absurd h0 hc⟩
    · rw [hst, hs]
      split_ifs with hc
      · exact ⟨fun h0 => absurd h0.symm hne, fun h0 => absurd hc h0⟩
      · exact ⟨fun _ => hc, fun _ => rfl⟩
  · intro hs i1 i2 i3 h1 h2 h3 c1 c2 c3 a1 a2 a3 a4 a5
    have e1 : (processEventsStep s h1 i1).1.state = STATE_DISCONNECTED := by
      rw [(processEventsStep_state s h1 i1).1, if_neg (fun hc => hc.2 a2), hs]
    have e2 : (processEventsStep (processEventsStep s h1 i1).1 h2 i2).1.state
        = STATE_CONNECTED := by
      rw [(processEventsStep_state _ h2 i2).1, if_pos ⟨a3, a4⟩]
    obtain ⟨t3, ht3, _, hst3⟩ := connectedStep_state
      (processEventsStep (processEventsStep s h1 i1).1 h2 i2).1 i3 c3
      (hok_pe _ h2 i2 (hok_pe s h1 i1 hok))
    refine ⟨_, _, t3, ?_, ?_, ?_, e1, e2, ?_⟩
    · simp only [modeStep, hs, if_true]
    · simp only [modeStep, e1, if_true]
    · unfold modeStep
      rw [e2, if_neg hne, if_pos rfl]
      exact ht3
    · rw [hst3, if_pos a5]

/-- Witness of C10: from the initial state, link presence false, true, false. -/
theorem connection_mode_steps_witness :
    SessionOk initState ∧
    ∃ t1 t2 t3, modeStep initState encReset ⟨3, 0x10, 0x02, true, 0, 0, 0⟩ [] = some t1 ∧
      modeStep t1 encReset ⟨3, 0x10, 0x02, true, 0, 0, 0x10⟩ [] = some t2 ∧
      modeStep t2 encReset ⟨3, 0x10, 0x02, false, 0, 0, 0⟩ [] = some t3 ∧
      t1.state = STATE_DISCONNECTED ∧ t2.state = STATE_CONNECTED ∧
      t3.state = STATE_DISCONNECTED :=
  ⟨⟨rfl, by decide, by decide, by decide⟩,
    (connection_mode_steps initState encReset ⟨3, 0x10, 0x02, true, 0, 0, 0⟩ []
      ⟨rfl, by decide, by decide, by decide⟩).2.2.2 rfl
      ⟨3, 0x10, 0x02, true, 0, 0, 0⟩ ⟨3, 0x10, 0x02, true, 0, 0, 0x10⟩
      ⟨3, 0x10, 0x02, false, 0, 0, 0⟩ encReset encReset encReset [] [] []
      rfl (by decide) rfl (by decide) (by decide)⟩

end UsbPwr
